import Mathlib

/-!
A shallow embedding of `src/soundboard.py` (class `SoundboardApp`), the
in-memory sound registry of the Variation-Soundboard application, together
with theorems checking the specification's claims about it.

Modelling conventions:
* Python `float` volumes are modelled as rationals (`ℚ`).
* The Python dicts `self.sounds` and `self.hotkey_handles` are
  insertion-ordered association lists; `dictInsert` mirrors dict assignment
  (update in place, append when absent), `dictErase` mirrors `del`.  The
  handles returned by `keyboard.add_hotkey` are external tokens the core
  never inspects, so `hotkey_handles` keeps only its key set (membership is
  all the source ever reads from it).
* External collaborators become parameters: the file dialogs and text
  prompts are function arguments (with `none` for a cancelled dialog), the
  on-disk file system is the finite list of existing paths, success of
  `keyboard.add_hotkey` is a Boolean oracle, `shutil.rmtree` success is a
  Boolean oracle, `uuid.uuid4().hex[:8]` is a supplied token, and
  `random.choice` is modelled by an arbitrary draw index.
* `str.lower` / `str.strip` are modelled for the ASCII strings the program
  manipulates (`Char.toLower` / `String.trim`); `os.path.splitext`,
  `os.path.basename` and `os.path.join` follow the POSIX implementations.
-/

namespace Soundboard

/-- `CONFIG_FILE = "soundboard_config.json"` (source line 12). -/
def CONFIG_FILE : String := "soundboard_config.json"

/-- `SOUNDS_FOLDER = "sounds"` (source line 13). -/
def SOUNDS_FOLDER : String := "sounds"

/-- Python `str.lower()` (ASCII fragment). -/
def pyLower (s : String) : String := String.mk (s.toList.map Char.toLower)

/-- The ASCII whitespace `str.strip()` removes. -/
def pyIsSpace (c : Char) : Bool :=
  c == ' ' || c == '\t' || c == '\n' || c == '\r' || c == '\x0b' || c == '\x0c'

/-- Python `str.strip()`: drop leading and trailing whitespace. -/
def pyStrip (s : String) : String :=
  String.mk (((s.toList.dropWhile pyIsSpace).reverse.dropWhile pyIsSpace).reverse)

/-- `key.lower().strip()` — the hotkey normalisation the source applies at
every point a hotkey string enters the registry. -/
def normKey (s : String) : String := pyStrip (pyLower s)

/-- `SoundboardApp._sanitize_folder_name` (source lines 64-68): replace
each of the characters `<>:"/\|?*` by `_` (the chain of single-character
`str.replace` calls is one character map), then strip. -/
def sanitize_folder_name (name : String) : String :=
  pyStrip (String.mk (name.toList.map fun c =>
    if c ∈ ['<', '>', ':', '"', '/', '\\', '|', '?', '*'] then '_' else c))

/-- `SoundboardApp._generate_sound_id` (source lines 70-71):
`f"{sanitize(base_name)}_{uuid.uuid4().hex[:8]}"` with the uuid token as a
parameter. -/
def genId (base_name uuidHex : String) : String :=
  sanitize_folder_name base_name ++ "_" ++ uuidHex

/-- Index of the last occurrence of `c` in `cs` (helper for
`os.path.splitext`). -/
def lastIdxAux (c : Char) : List Char → Nat → Option Nat → Option Nat
  | [], _, acc => acc
  | x :: rest, i, acc => lastIdxAux c rest (i + 1) (if x = c then some i else acc)

def lastIdx (cs : List Char) (c : Char) : Option Nat := lastIdxAux c cs 0 none

/-- `posixpath.splitext`: split off the extension at the last dot of the
final path component, unless that component consists only of leading
dots up to it. -/
def splitext (p : String) : String × String :=
  let cs := p.toList
  match lastIdx cs '.' with
  | none => (p, "")
  | some d =>
    let s : Nat :=
      match lastIdx cs '/' with
      | none => 0
      | some i => i + 1
    if s ≤ d then
      if ((cs.drop s).take (d - s)).any (fun ch => ch != '.') then
        (String.mk (cs.take d), String.mk (cs.drop d))
      else (p, "")
    else (p, "")

/-- `posixpath.basename`: everything after the last `/`. -/
def basename (p : String) : String :=
  String.mk ((p.toList.reverse.takeWhile (fun c => c != '/')).reverse)

/-- The `while os.path.exists(sound_folder)` loop of `add_sound` (source
lines 107-111), with fuel: candidates `original`, `original_1`,
`original_2`, … are pairwise distinct, so `fs.length + 1` candidates always
contain a free one. -/
def freshFolderGo (fs : List String) (original : String) :
    Nat → String → Nat → String
  | 0, cur, _ => cur
  | Nat.succ fuel, cur, counter =>
      if cur ∈ fs then
        freshFolderGo fs original fuel (original ++ "_" ++ toString counter)
          (counter + 1)
      else cur

def freshFolder (fs : List String) (original : String) : String :=
  freshFolderGo fs original (fs.length + 1) original 1

/-- The `while os.path.exists(dest_path)` loop of `add_sound` (source lines
119-123): retry `folder/stem_counter·ext` until free. -/
def freshDestGo (fs : List String) (folder stem ext : String) :
    Nat → String → Nat → String
  | 0, cur, _ => cur
  | Nat.succ fuel, cur, counter =>
      if cur ∈ fs then
        freshDestGo fs folder stem ext fuel
          (folder ++ "/" ++ stem ++ "_" ++ toString counter ++ ext) (counter + 1)
      else cur

/-- The copy loop of `add_sound` (source lines 114-126): for each selected
file, pick a collision-free destination in `sound_folder`, copy
(`shutil.copy2`, which makes the destination exist on disk for the next
iteration), and collect the destination paths. -/
def copyAll (fs : List String) (folder : String) : List String → List String
  | [] => []
  | fp :: rest =>
      let filename := basename fp
      let se := splitext filename
      let dest := freshDestGo fs folder se.1 se.2 (fs.length + 1)
        (folder ++ "/" ++ filename) 1
      dest :: copyAll (dest :: fs) folder rest

/-- One entry of `self.sounds` (source lines 129-135): the per-sound dict
with keys `name`, `folder`, `files`, `volume`, `key`.  `folder` is an
`Option` because `load_config` stores `entry.get("folder")`, which is
`None` when the field is absent.  `key` holds the sentinel string
`"(unbound)"` exactly as the source does. -/
structure SoundEntry where
  name : String
  folder : Option String
  files : List String
  volume : ℚ
  key : String
deriving Repr, DecidableEq

/-- The mutable state of `SoundboardApp` that the registry logic touches:
`self.sounds` (sound id → entry, insertion-ordered) and
`self.hotkey_handles` (the keys currently registered with the `keyboard`
library). -/
structure AppState where
  sounds : List (String × SoundEntry)
  hotkey_handles : List String
deriving Repr, DecidableEq

/-- `self.sounds.get(sound_id)` / `sound_id in self.sounds`. -/
def lookup : List (String × SoundEntry) → String → Option SoundEntry
  | [], _ => none
  | p :: rest, k => if p.1 = k then some p.2 else lookup rest k

/-- `self.sounds[sound_id] = entry`: dict assignment (replace in place,
else append). -/
def dictInsert : List (String × SoundEntry) → String → SoundEntry →
    List (String × SoundEntry)
  | [], k, v => [(k, v)]
  | p :: rest, k, v =>
      if p.1 = k then (k, v) :: rest else p :: dictInsert rest k v

/-- `del self.sounds[item]`. -/
def dictErase : List (String × SoundEntry) → String → List (String × SoundEntry)
  | [], _ => []
  | p :: rest, k => if p.1 = k then rest else p :: dictErase rest k

/-- `self.hotkey_handles[key] = handle` (handles kept as their key set). -/
def keyInsert : List String → String → List String
  | [], k => [k]
  | x :: rest, k => if x = k then x :: rest else x :: keyInsert rest k

/-- `self.hotkey_handles.pop(key, None)` — also the handle-set effect of
`SoundboardApp._safe_remove_hotkey_by_key` (source lines 73-84), whose
`keyboard.remove_hotkey` errors are swallowed. -/
def keyPop : List String → String → List String
  | [], _ => []
  | x :: rest, k => if x = k then rest else x :: keyPop rest k

/-- `self.sounds[sid]["key"] = newkey`: in-place mutation of one entry's
`key` field. -/
def setKey (l : List (String × SoundEntry)) (sid newkey : String) :
    List (String × SoundEntry) :=
  l.map fun p => if p.1 = sid then (p.1, { p.2 with key := newkey }) else p

/-- `sound_data["volume"] = v`. -/
def setVolume (l : List (String × SoundEntry)) (sid : String) (v : ℚ) :
    List (String × SoundEntry) :=
  l.map fun p => if p.1 = sid then (p.1, { p.2 with volume := v }) else p

/-- Observable side effects of `add_sound`: folders created
(`os.makedirs`), files copied (`shutil.copy2` destinations), and attempted
hotkey registrations with their outcome. -/
structure AddFX where
  mkdirs : List String
  copies : List String
  engineAdds : List (String × Bool)
deriving Repr, DecidableEq

/-- `SoundboardApp.add_sound` (source lines 86-159).  Parameters stand for
the externals: `fs` the existing on-disk paths, `filepaths` the file-dialog
result (`[]` when cancelled), `nameIn`/`keyIn` the two text prompts
(`none` = cancelled dialog, which Python's `if not name:` treats like the
empty string), `uuidHex` the fresh uuid token, `bindOk` whether
`keyboard.add_hotkey` succeeds when attempted. -/
def add_sound (st : AppState) (fs : List String) (filepaths : List String)
    (nameIn keyIn : Option String) (uuidHex : String) (bindOk : Bool) :
    AppState × AddFX :=
  match filepaths with
  | [] => (st, ⟨[], [], []⟩)
  | _ :: _ =>
    match nameIn with
    | none => (st, ⟨[], [], []⟩)
    | some name =>
      if name = "" then (st, ⟨[], [], []⟩) else
      match keyIn with
      | none => (st, ⟨[], [], []⟩)
      | some rawKey =>
        if rawKey = "" then (st, ⟨[], [], []⟩) else
        let key := normKey rawKey
        let folder_name := sanitize_folder_name name
        let sound_folder := freshFolder fs (SOUNDS_FOLDER ++ "/" ++ folder_name)
        let copied_files := copyAll (sound_folder :: fs) sound_folder filepaths
        let sound_id := genId name uuidHex
        let entry0 : SoundEntry :=
          { name := name, folder := some sound_folder, files := copied_files,
            volume := 1, key := "(unbound)" }
        if key ∈ st.hotkey_handles then
          (⟨dictInsert st.sounds sound_id entry0, st.hotkey_handles⟩,
           ⟨[sound_folder], copied_files, []⟩)
        else if bindOk then
          (⟨dictInsert st.sounds sound_id { entry0 with key := key },
            keyInsert st.hotkey_handles key⟩,
           ⟨[sound_folder], copied_files, [(key, true)]⟩)
        else
          (⟨dictInsert st.sounds sound_id entry0, st.hotkey_handles⟩,
           ⟨[sound_folder], copied_files, [(key, false)]⟩)

/-- What `play_sound` hands to the audio engine (or does not). -/
inductive PlayAction where
  /-- Returned silently: unknown id or empty `files` list. -/
  | noop : PlayAction
  /-- Chosen file no longer exists on disk: report, abort this playback. -/
  | missingFile (file : String) : PlayAction
  /-- `pygame.mixer.music.load/.set_volume/.play` (the `.mp3` streamed path). -/
  | musicPlay (file : String) (vol : ℚ) : PlayAction
  /-- `pygame.mixer.Sound(...).set_volume/.play` (direct sample path). -/
  | samplePlay (file : String) (vol : ℚ) : PlayAction
deriving Repr, DecidableEq

/-- `SoundboardApp.play_sound` (source lines 198-231).  `pick` is the draw
of `random.choice(sound_data["files"])`, modelled as an arbitrary index
into the (non-empty) list; `fs` is the set of paths existing on disk. -/
def play_sound (st : AppState) (fs : List String) (pick : Nat)
    (sound_id : String) : PlayAction :=
  match lookup st.sounds sound_id with
  | none => .noop
  | some sound_data =>
    match sound_data.files with
    | [] => .noop
    | _ :: _ =>
      let sound_file := sound_data.files.getD (pick % sound_data.files.length) ""
      if sound_file ∈ fs then
        if pyLower (splitext sound_file).2 = ".mp3" then
          .musicPlay sound_file sound_data.volume
        else
          .samplePlay sound_file sound_data.volume
      else .missingFile sound_file

/-- Observable side effects of `remove_sound`: the attempted
`shutil.rmtree` calls with their outcome (failures are printed, never
propagated) and the hotkey deregistrations. -/
structure RemoveFX where
  rmtreeAttempts : List (String × Bool)
  engineRemoves : List String
deriving Repr, DecidableEq

/-- The in-memory part of one iteration of the `remove_sound` loop (source
lines 245-276): for a known id, release the hotkey binding (when bound)
and delete the record; the `shutil.rmtree` outcome cannot influence this
because its exception is caught. -/
def remove_one_state (st : AppState) (item : String) : AppState :=
  match lookup st.sounds item with
  | none => st
  | some entry =>
      ⟨dictErase st.sounds item,
       if entry.key ≠ "" ∧ entry.key ≠ "(unbound)" then
         keyPop st.hotkey_handles entry.key
       else st.hotkey_handles⟩

/-- One iteration of the `remove_sound` loop with its side effects:
`rmok` tells whether `shutil.rmtree` succeeds on a folder, `fs` is the
set of existing paths (a successful delete removes the folder). -/
def remove_one (rmok : String → Bool) :
    AppState × List String × RemoveFX → String → AppState × List String × RemoveFX
  | (st, fs, fx), item =>
    match lookup st.sounds item with
    | none => (st, fs, fx)
    | some entry =>
        let rmAttempt : List (String × Bool) :=
          match entry.folder with
          | some f => if f ∈ fs then [(f, rmok f)] else []
          | none => []
        let fs' : List String :=
          match entry.folder with
          | some f => if f ∈ fs ∧ rmok f then keyPop fs f else fs
          | none => fs
        let engineRem : List String :=
          if entry.key ≠ "" ∧ entry.key ≠ "(unbound)" then [entry.key] else []
        (remove_one_state st item, fs',
         ⟨fx.rmtreeAttempts ++ rmAttempt, fx.engineRemoves ++ engineRem⟩)

/-- `SoundboardApp.remove_sound` (source lines 233-276): after the
confirmation dialog, process each selected row; ids that are not in
`self.sounds` only lose their tree row. -/
def remove_sound (st : AppState) (selected : List String) (confirm : Bool)
    (fs : List String) (rmok : String → Bool) :
    AppState × List String × RemoveFX :=
  match selected with
  | [] => (st, fs, ⟨[], []⟩)
  | _ :: _ =>
      if confirm then selected.foldl (remove_one rmok) (st, fs, ⟨[], []⟩)
      else (st, fs, ⟨[], []⟩)

/-- One object of the persisted JSON list.  Every field is optional:
`load_config` reads each with `.get` and a default, and `save_config`
writes `key` as JSON `null` for unbound records (read back as `None`,
i.e. `none`). -/
structure ConfigEntry where
  name : Option String := none
  folder : Option String := none
  files : Option (List String) := none
  volume : Option ℚ := none
  key : Option String := none
deriving Repr, DecidableEq

/-- The content of `soundboard_config.json` as `load_config` sees it:
either `json.load` raises (unreadable/corrupt file) or it yields a list of
objects. -/
inductive ConfigFile where
  | unreadable (msg : String) : ConfigFile
  | parsed (entries : List ConfigEntry) : ConfigFile
deriving Repr, DecidableEq

/-- The object `save_config` appends for one record (source lines
283-289): all fields present, with the `"(unbound)"` sentinel written as
`null`. -/
def saveEntry (p : String × SoundEntry) : ConfigEntry :=
  { name := some p.2.name
    folder := p.2.folder
    files := some p.2.files
    volume := some p.2.volume
    key := if p.2.key ≠ "(unbound)" then some p.2.key else none }

/-- `SoundboardApp.save_config` (source lines 278-294): serialise each
record in registry order. -/
def save_config (st : AppState) : List ConfigEntry :=
  st.sounds.map saveEntry

/-- The hotkey `load_config` attempts to register for one entry, if any
(source lines 327-329 and 340): `key = entry.get("key")`; if truthy it is
normalised, and registration is attempted iff the normalised key is still
truthy. -/
def loadKeyAttempt (e : ConfigEntry) : Option String :=
  match e.key with
  | none => none
  | some k => if normKey k ≠ "" then some (normKey k) else none

/-- The record `load_config` builds for one entry (source lines 322-349),
given whether the attempted `keyboard.add_hotkey` call succeeded:
missing `name` defaults to `"Unnamed"`, missing `files` (or JSON `null`)
to `[]`, missing `volume` to `1.0`, and the key is stored only on a
successful registration. -/
def loadedRecord (ok : Bool) (e : ConfigEntry) : SoundEntry :=
  { name := e.name.getD "Unnamed"
    folder := e.folder
    files := e.files.getD []
    volume := e.volume.getD 1
    key :=
      match loadKeyAttempt e with
      | some k => if ok then k else "(unbound)"
      | none => "(unbound)" }

/-- The `failed_keys` line contributed by one entry (source line 347):
`f"{name} ({key})"` on a failed registration. -/
def loadFailMsg (ok : Bool) (e : ConfigEntry) : Option String :=
  match loadKeyAttempt e with
  | some k =>
      if ok then none else some (e.name.getD "Unnamed" ++ " (" ++ k ++ ")")
  | none => none

/-- The handle-table effect of one loaded entry (source line 343). -/
def loadHandles (ok : Bool) (e : ConfigEntry) (h : List String) : List String :=
  match loadKeyAttempt e with
  | some k => if ok then keyInsert h k else h
  | none => h

/-- One iteration of the `for entry in loaded:` loop (source lines
322-353). `uuid i` is the uuid token for the `i`-th entry, `bindOk i` the
outcome of its `keyboard.add_hotkey` call. -/
def loadOne (uuid : Nat → String) (bindOk : Nat → Bool) (i : Nat)
    (st : AppState) (e : ConfigEntry) : AppState × Option String :=
  (⟨dictInsert st.sounds (genId (e.name.getD "Unnamed") (uuid i))
      (loadedRecord (bindOk i) e),
    loadHandles (bindOk i) e st.hotkey_handles⟩,
   loadFailMsg (bindOk i) e)

def loadEntries (uuid : Nat → String) (bindOk : Nat → Bool) :
    Nat → AppState → List String → List ConfigEntry → AppState × List String
  | _, st, failed, [] => (st, failed)
  | i, st, failed, e :: rest =>
      let r := loadOne uuid bindOk i st e
      loadEntries uuid bindOk (i + 1) r.1
        (failed ++ (match r.2 with | none => [] | some m => [m])) rest

/-- Result of `load_config`: the new state, the `failed_keys` summary, and
whether the function returned early (missing file or `json.load` error)
without touching the registry. -/
structure LoadResult where
  state : AppState
  failed_keys : List String
  aborted : Bool
deriving Repr, DecidableEq

/-- `SoundboardApp.load_config` (source lines 296-360).  `file` is `none`
when `CONFIG_FILE` does not exist.  Crucially, the `json.load` failure
branch (lines 302-307) returns *before* the clearing of tree, handles and
`self.sounds` (lines 309-318); only a successfully parsed file wipes the
registry and rebuilds it. -/
def load_config (st : AppState) (file : Option ConfigFile)
    (uuid : Nat → String) (bindOk : Nat → Bool) : LoadResult :=
  match file with
  | none => ⟨st, [], true⟩
  | some (.unreadable _msg) => ⟨st, [], true⟩
  | some (.parsed entries) =>
      let r := loadEntries uuid bindOk 0 ⟨[], []⟩ [] entries
      ⟨r.1, r.2, false⟩

/-- `apply_volume` inside `SoundboardApp.edit_volume` (source lines
381-423): the slider value `new_volume` is an integer percentage (the
`tk.Scale` widget constrains it to 0..100); the record's volume becomes
`new_volume / 100` (Python true division). -/
def edit_volume (st : AppState) (item : String) (new_volume : ℤ) : AppState :=
  match lookup st.sounds item with
  | none => st
  | some _ => ⟨setVolume st.sounds item ((new_volume : ℚ) / 100), st.hotkey_handles⟩

/-- Calls `edit_keybind` makes into the `keyboard` library, in order. -/
inductive EngineEvent where
  | removeHotkey (key : String) : EngineEvent
  | addHotkey (key : String) (ok : Bool) : EngineEvent
deriving Repr, DecidableEq

/-- Result of `edit_keybind`: the new state, the hotkey-engine calls made,
and whether the conflict-confirmation dialog was shown. -/
structure EditResult where
  state : AppState
  events : List EngineEvent
  prompted : Bool
deriving Repr, DecidableEq

/-- The conflict scan of `edit_keybind` (source lines 464-468): the first
record other than `item` whose (truthy) key equals `new_key`. -/
def findConflict : List (String × SoundEntry) → String → String → Option String
  | [], _, _ => none
  | p :: rest, item, nk =>
      if p.1 ≠ item ∧ p.2.key ≠ "" ∧ p.2.key = nk then some p.1
      else findConflict rest item nk

/-- `SoundboardApp.edit_keybind` (source lines 425-504).  `newKeyIn` is the
text-prompt result (`none` = cancelled), `confirm` the answer to the
conflict dialog, `bindOk` whether `keyboard.add_hotkey` succeeds. -/
def edit_keybind (st : AppState) (item : String) (newKeyIn : Option String)
    (confirm : Bool) (bindOk : Bool) : EditResult :=
  match lookup st.sounds item with
  | none => ⟨st, [], false⟩
  | some sound_entry =>
    let old_key : Option String :=
      if sound_entry.key = "(unbound)" then none else some sound_entry.key
    match newKeyIn with
    | none => ⟨st, [], false⟩
    | some raw =>
      let new_key := normKey raw
      if new_key = "" then
        match old_key with
        | some ok' =>
            ⟨⟨setKey st.sounds item "(unbound)", keyPop st.hotkey_handles ok'⟩,
             [.removeHotkey ok'], false⟩
        | none =>
            ⟨⟨setKey st.sounds item "(unbound)", st.hotkey_handles⟩, [], false⟩
      else
      if some new_key = old_key then ⟨st, [], false⟩
      else
        match findConflict st.sounds item new_key with
        | some conflicting_id =>
          if confirm then
            let h1 := keyPop st.hotkey_handles new_key
            let s1 := setKey st.sounds conflicting_id "(unbound)"
            let h2 := match old_key with
              | some ok' => keyPop h1 ok'
              | none => h1
            let ev2 : List EngineEvent := match old_key with
              | some ok' => [.removeHotkey new_key, .removeHotkey ok']
              | none => [.removeHotkey new_key]
            if bindOk then
              ⟨⟨setKey s1 item new_key, keyInsert h2 new_key⟩,
               ev2 ++ [.addHotkey new_key true], true⟩
            else
              ⟨⟨setKey s1 item "(unbound)", h2⟩,
               ev2 ++ [.addHotkey new_key false], true⟩
          else ⟨st, [], true⟩
        | none =>
          let h2 := match old_key with
            | some ok' => keyPop st.hotkey_handles ok'
            | none => st.hotkey_handles
          let ev2 : List EngineEvent := match old_key with
            | some ok' => [.removeHotkey ok']
            | none => []
          if bindOk then
            ⟨⟨setKey st.sounds item new_key, keyInsert h2 new_key⟩,
             ev2 ++ [.addHotkey new_key true], false⟩
          else
            ⟨⟨setKey st.sounds item "(unbound)", h2⟩,
             ev2 ++ [.addHotkey new_key false], false⟩

/-! ### Association-list and handle-table lemmas -/

theorem ids_nodup_cons {p : String × SoundEntry} {rest : List (String × SoundEntry)}
    (h : ((p :: rest).map Prod.fst).Nodup) :
    p.1 ∉ rest.map Prod.fst ∧ (rest.map Prod.fst).Nodup := by
  rw [List.map_cons, List.nodup_cons] at h
  exact h

theorem lookup_eq_none_iff {l : List (String × SoundEntry)} {k : String} :
    lookup l k = none ↔ ∀ p ∈ l, p.1 ≠ k := by
  induction l with
  | nil => simp [lookup]
  | cons p rest ih => by_cases h : p.1 = k <;> simp [lookup, h, ih]

theorem lookup_mem {l : List (String × SoundEntry)} {k : String} {e : SoundEntry}
    (h : lookup l k = some e) : (k, e) ∈ l := by
  induction l with
  | nil => simp [lookup] at h
  | cons p rest ih =>
      by_cases hp : p.1 = k
      · simp only [lookup, if_pos hp, Option.some.injEq] at h
        exact List.mem_cons.mpr (Or.inl (by obtain ⟨p1, p2⟩ := p; simp_all))
      · simp only [lookup, if_neg hp] at h
        exact List.mem_cons_of_mem _ (ih h)

theorem lookup_of_mem {l : List (String × SoundEntry)} {k : String} {e : SoundEntry}
    (hnd : (l.map Prod.fst).Nodup) (h : (k, e) ∈ l) : lookup l k = some e := by
  induction l with
  | nil => simp at h
  | cons p rest ih =>
      rcases List.mem_cons.mp h with h | h
      · rw [← h]
        simp [lookup]
      · have hk : p.1 ≠ k := by
          intro hk
          have : k ∈ rest.map Prod.fst := List.mem_map.mpr ⟨(k, e), h, rfl⟩
          rw [← hk] at this
          exact (ids_nodup_cons hnd).1 this
        simp only [lookup, if_neg hk]
        exact ih (ids_nodup_cons hnd).2 h

theorem dictInsert_of_not_mem {l : List (String × SoundEntry)} {k : String}
    {v : SoundEntry} (h : ∀ p ∈ l, p.1 ≠ k) : dictInsert l k v = l ++ [(k, v)] := by
  induction l with
  | nil => rfl
  | cons p rest ih =>
      have hp : p.1 ≠ k := h p (List.mem_cons_self _ _)
      simp only [dictInsert, if_neg hp, List.cons_append, List.cons.injEq, true_and]
      exact ih fun q hq => h q (List.mem_cons_of_mem _ hq)

theorem mem_dictInsert {l : List (String × SoundEntry)} {k : String}
    {v : SoundEntry} {q : String × SoundEntry} (h : q ∈ dictInsert l k v) :
    q = (k, v) ∨ q ∈ l := by
  induction l with
  | nil => simpa [dictInsert] using h
  | cons p rest ih =>
      by_cases hp : p.1 = k
      · simp only [dictInsert, if_pos hp] at h
        rcases List.mem_cons.mp h with h | h
        · exact Or.inl h
        · exact Or.inr (List.mem_cons_of_mem _ h)
      · simp only [dictInsert, if_neg hp] at h
        rcases List.mem_cons.mp h with h | h
        · exact Or.inr (h ▸ List.mem_cons_self _ _)
        · rcases ih h with h | h
          · exact Or.inl h
          · exact Or.inr (List.mem_cons_of_mem _ h)

theorem dictErase_sublist (l : List (String × SoundEntry)) (k : String) :
    List.Sublist (dictErase l k) l := by
  induction l with
  | nil => simp [dictErase]
  | cons p rest ih =>
      by_cases hp : p.1 = k
      · simpa [dictErase, hp] using List.sublist_cons_self p rest
      · simpa [dictErase, hp] using ih.cons₂ p

theorem lookup_dictErase_self {l : List (String × SoundEntry)} {k : String}
    (hnd : (l.map Prod.fst).Nodup) : lookup (dictErase l k) k = none := by
  induction l with
  | nil => rfl
  | cons p rest ih =>
      obtain ⟨hniq, hrest⟩ := ids_nodup_cons hnd
      by_cases hp : p.1 = k
      · simp only [dictErase, if_pos hp]
        rw [lookup_eq_none_iff]
        intro q hq hqk
        exact hniq (List.mem_map.mpr ⟨q, hq, by rw [hqk, hp]⟩)
      · simp only [dictErase, if_neg hp, lookup, if_neg hp]
        exact ih hrest

theorem lookup_dictErase_ne {l : List (String × SoundEntry)} {k k' : String}
    (h : k' ≠ k) : lookup (dictErase l k) k' = lookup l k' := by
  induction l with
  | nil => rfl
  | cons p rest ih =>
      by_cases hp : p.1 = k
      · have : p.1 ≠ k' := fun hc => h (by rw [← hc, hp])
        simp [dictErase, hp, lookup, this, h.symm]
      · by_cases hp' : p.1 = k' <;>
          simp [dictErase, hp, lookup, hp', ih, h, h.symm]

theorem mem_dictErase_of_ne {l : List (String × SoundEntry)} {k : String}
    {p : String × SoundEntry} (hm : p ∈ l) (hne : p.1 ≠ k) : p ∈ dictErase l k := by
  induction l with
  | nil => simp at hm
  | cons q rest ih =>
      by_cases hq : q.1 = k
      · rcases List.mem_cons.mp hm with h | h
        · exact absurd (h ▸ hq) hne
        · simpa [dictErase, hq] using h
      · rcases List.mem_cons.mp hm with h | h
        · simp [dictErase, hq, h]
        · simp [dictErase, hq, ih h]

theorem mem_of_mem_dictErase {l : List (String × SoundEntry)} {k : String}
    {p : String × SoundEntry} (h : p ∈ dictErase l k) : p ∈ l :=
  (dictErase_sublist l k).mem h

theorem mem_keyInsert {l : List String} {k a : String} :
    a ∈ keyInsert l k ↔ a = k ∨ a ∈ l := by
  induction l with
  | nil => simp [keyInsert]
  | cons x rest ih =>
      by_cases hx : x = k
      · subst hx
        simp only [keyInsert, if_pos rfl]
        constructor
        · intro h
          exact Or.inr h
        · intro h
          rcases h with h | h
          · exact h ▸ List.mem_cons_self _ _
          · exact h
      · simp only [keyInsert, if_neg hx, List.mem_cons, ih]
        tauto

theorem keyInsert_nodup {l : List String} {k : String} (h : l.Nodup) :
    (keyInsert l k).Nodup := by
  induction l with
  | nil => simp [keyInsert]
  | cons x rest ih =>
      obtain ⟨hx, hrest⟩ := List.nodup_cons.mp h
      by_cases hxk : x = k
      · simpa [keyInsert, hxk] using h
      · rw [keyInsert, if_neg hxk, List.nodup_cons]
        refine ⟨fun hc => ?_, ih hrest⟩
        rcases mem_keyInsert.mp hc with hc | hc
        · exact hxk hc
        · exact hx hc

theorem keyPop_sublist (l : List String) (k : String) :
    List.Sublist (keyPop l k) l := by
  induction l with
  | nil => simp [keyPop]
  | cons x rest ih =>
      by_cases hx : x = k
      · simpa [keyPop, hx] using List.sublist_cons_self x rest
      · simpa [keyPop, hx] using ih.cons₂ x

theorem mem_of_mem_keyPop {l : List String} {k a : String} (h : a ∈ keyPop l k) :
    a ∈ l :=
  (keyPop_sublist l k).mem h

theorem keyPop_nodup {l : List String} {k : String} (h : l.Nodup) :
    (keyPop l k).Nodup :=
  h.sublist (keyPop_sublist l k)

theorem mem_keyPop {l : List String} {k a : String} (hm : a ∈ l) (hne : a ≠ k) :
    a ∈ keyPop l k := by
  induction l with
  | nil => simp at hm
  | cons x rest ih =>
      by_cases hx : x = k
      · rcases List.mem_cons.mp hm with h | h
        · exact absurd (h ▸ hx) hne
        · simpa [keyPop, hx] using h
      · rcases List.mem_cons.mp hm with h | h
        · simp [keyPop, hx, h]
        · simp [keyPop, hx, ih h]

theorem not_mem_keyPop_self {l : List String} {k : String} (h : l.Nodup) :
    k ∉ keyPop l k := by
  induction l with
  | nil => simp [keyPop]
  | cons x rest ih =>
      obtain ⟨hx, hrest⟩ := List.nodup_cons.mp h
      by_cases hxk : x = k
      · subst hxk
        simpa [keyPop] using hx
      · simp only [keyPop, if_neg hxk, List.mem_cons]
        rintro (hc | hc)
        · exact hxk hc.symm
        · exact ih hrest hc

theorem setKey_cons {p : String × SoundEntry} {rest : List (String × SoundEntry)}
    {sid k : String} :
    setKey (p :: rest) sid k =
      (if p.1 = sid then (p.1, { p.2 with key := k }) else p) :: setKey rest sid k := by
  simp [setKey]

theorem setKey_map_fst (l : List (String × SoundEntry)) (sid k : String) :
    (setKey l sid k).map Prod.fst = l.map Prod.fst := by
  induction l with
  | nil => rfl
  | cons p rest ih =>
      by_cases hp : p.1 = sid <;> simp [setKey, hp] <;>
        simpa [setKey] using ih

theorem lookup_setKey_self {l : List (String × SoundEntry)} {sid : String}
    {e : SoundEntry} (k : String) (h : lookup l sid = some e) :
    lookup (setKey l sid k) sid = some { e with key := k } := by
  induction l with
  | nil => simp [lookup] at h
  | cons p rest ih =>
      by_cases hp : p.1 = sid
      · simp only [lookup, if_pos hp, Option.some.injEq] at h
        simp [setKey_cons, lookup, hp, h]
      · simp only [lookup, if_neg hp] at h
        simpa [setKey_cons, lookup, hp] using ih h

theorem lookup_setKey_ne {l : List (String × SoundEntry)} {sid sid' : String}
    (k : String) (h : sid' ≠ sid) :
    lookup (setKey l sid k) sid' = lookup l sid' := by
  induction l with
  | nil => rfl
  | cons p rest ih =>
      rw [setKey_cons]
      by_cases hp : p.1 = sid
      · have hne : p.1 ≠ sid' := fun hc => h (by rw [← hc, hp])
        rw [if_pos hp]
        simp only [lookup, if_neg hne]
        exact ih
      · rw [if_neg hp]
        by_cases hp' : p.1 = sid'
        · simp only [lookup, if_pos hp']
        · simp only [lookup, if_neg hp']
          exact ih

theorem mem_setKey {l : List (String × SoundEntry)} {sid k : String}
    {q : String × SoundEntry} (h : q ∈ setKey l sid k) :
    ∃ p ∈ l, (p.1 ≠ sid ∧ q = p) ∨ (p.1 = sid ∧ q = (p.1, { p.2 with key := k })) := by
  rcases List.mem_map.mp h with ⟨p, hp, hq⟩
  by_cases hps : p.1 = sid
  · exact ⟨p, hp, Or.inr ⟨hps, by rw [← hq]; simp [hps]⟩⟩
  · exact ⟨p, hp, Or.inl ⟨hps, by rw [← hq]; simp [hps]⟩⟩

theorem mem_setKey_of_ne {l : List (String × SoundEntry)} {sid k : String}
    {p : String × SoundEntry} (hm : p ∈ l) (hne : p.1 ≠ sid) :
    p ∈ setKey l sid k :=
  List.mem_map.mpr ⟨p, hm, by simp [hne]⟩

theorem mem_setKey_self {l : List (String × SoundEntry)} {sid k : String}
    {p : String × SoundEntry} (hm : p ∈ l) (heq : p.1 = sid) :
    (p.1, { p.2 with key := k }) ∈ setKey l sid k :=
  List.mem_map.mpr ⟨p, hm, by simp [heq]⟩

theorem mem_setVolume {l : List (String × SoundEntry)} {sid : String} {v : ℚ}
    {q : String × SoundEntry} (h : q ∈ setVolume l sid v) :
    ∃ p ∈ l, q.2.volume = v ∨ q.2.volume = p.2.volume := by
  rcases List.mem_map.mp h with ⟨p, hp, hq⟩
  by_cases hps : p.1 = sid
  · exact ⟨p, hp, Or.inl (by rw [← hq]; simp [hps])⟩
  · exact ⟨p, hp, Or.inr (by rw [← hq]; simp [hps])⟩

theorem findConflict_some {l : List (String × SoundEntry)} {item nk cid : String}
    (h : findConflict l item nk = some cid) :
    cid ≠ item ∧ ∃ e, (cid, e) ∈ l ∧ e.key = nk ∧ e.key ≠ "" := by
  induction l with
  | nil => simp [findConflict] at h
  | cons p rest ih =>
      by_cases hp : p.1 ≠ item ∧ p.2.key ≠ "" ∧ p.2.key = nk
      · simp only [findConflict, if_pos hp, Option.some.injEq] at h
        subst h
        exact ⟨hp.1, p.2, List.mem_cons_self _ _, hp.2.2, hp.2.1⟩
      · simp only [findConflict, if_neg hp] at h
        obtain ⟨h1, e, h2, h3⟩ := ih h
        exact ⟨h1, e, List.mem_cons_of_mem _ h2, h3⟩

theorem findConflict_none {l : List (String × SoundEntry)} {item nk : String}
    (h : findConflict l item nk = none) :
    ∀ p ∈ l, p.1 ≠ item → p.2.key ≠ "" → p.2.key ≠ nk := by
  induction l with
  | nil => simp
  | cons p rest ih =>
      by_cases hp : p.1 ≠ item ∧ p.2.key ≠ "" ∧ p.2.key = nk
      · simp [findConflict, if_pos hp] at h
      · simp only [findConflict, if_neg hp] at h
        intro q hq h1 h2
        rcases List.mem_cons.mp hq with rfl | hq
        · intro hc
          exact hp ⟨h1, h2, hc⟩
        · exact ih h q hq h1 h2

theorem getD_mem_of_lt {l : List String} {i : Nat} {d : String}
    (h : i < l.length) : l.getD i d ∈ l := by
  rw [List.getD_eq_getElem?_getD, List.getElem?_eq_getElem h, Option.getD_some]
  exact List.getElem_mem h

/-! ### Claim C2 (corrected) -/

/-- Claim C2, counterexample: a `json.load` failure happens *before* the
clearing of `self.sounds` (source lines 302-307 precede 309-318), so the
previous in-memory registry is left exactly as it was — not empty, contrary
to the claim that it "having already been cleared before the failure, is
left empty". -/
theorem C2_counterexample :
    (load_config
        ⟨[("Airhorn_a1",
           ⟨"Airhorn", some "sounds/Airhorn", ["sounds/Airhorn/a.wav"], 1, "f1"⟩)],
         ["f1"]⟩
        (some (.unreadable "Expecting value: line 1 column 1"))
        (fun i => toString i) (fun _ => true)).state =
      ⟨[("Airhorn_a1",
         ⟨"Airhorn", some "sounds/Airhorn", ["sounds/Airhorn/a.wav"], 1, "f1"⟩)],
       ["f1"]⟩ ∧
    (load_config
        ⟨[("Airhorn_a1",
           ⟨"Airhorn", some "sounds/Airhorn", ["sounds/Airhorn/a.wav"], 1, "f1"⟩)],
         ["f1"]⟩
        (some (.unreadable "Expecting value: line 1 column 1"))
        (fun i => toString i) (fun _ => true)).state.sounds ≠ [] :=
  ⟨rfl, by decide⟩

/-- Claim C2, amended: if the persisted config file's payload cannot be
parsed, `load_config` aborts entirely with a single top-level error and no
partial application of the corrupt file; the previous in-memory registry is
left *intact* (clearing only happens after a successful parse), not
cleared-and-empty as the original claim stated. -/
theorem C2_unreadable_aborts_intact (st : AppState) (msg : String)
    (uuid : Nat → String) (bindOk : Nat → Bool) :
    load_config st (some (.unreadable msg)) uuid bindOk = ⟨st, [], true⟩ :=
  rfl

/-! ### Claim C5 (confirmed) -/

/-- Claim C5: `play_sound` on an id absent from the registry, or on a
record whose `files` sequence is empty, is a silent no-op — no
audio-engine call is made and no error is raised. -/
theorem C5_play_absent_or_empty_is_noop (st : AppState) (fs : List String)
    (pick : Nat) (sound_id : String)
    (h : lookup st.sounds sound_id = none ∨
         ∃ sd, lookup st.sounds sound_id = some sd ∧ sd.files = []) :
    play_sound st fs pick sound_id = .noop := by
  rcases h with h | ⟨sd, h, hf⟩
  · simp [play_sound, h]
  · simp [play_sound, h, hf]

/-- Witness for C5 at concrete inputs: an id that was never added, and a
record with an empty variation list. -/
theorem C5_witness :
    play_sound ⟨[("a1", ⟨"A", none, [], 1, "(unbound)"⟩)], []⟩ [] 0 "gone" =
      .noop ∧
    play_sound ⟨[("a1", ⟨"A", none, [], 1, "(unbound)"⟩)], []⟩ [] 0 "a1" =
      .noop :=
  ⟨C5_play_absent_or_empty_is_noop _ _ _ _ (Or.inl (by decide)),
   C5_play_absent_or_empty_is_noop _ _ _ _
     (Or.inr ⟨⟨"A", none, [], 1, "(unbound)"⟩, by decide, rfl⟩)⟩

/-! ### Claim C6 (confirmed) -/

/-- Claim C6: for a record with a non-empty `files` sequence, `play_sound`
selects one file from the sequence (the random draw is modelled by the
arbitrary index `pick`; uniformity is `random.choice`'s contract), aborts
this single playback with no engine call when the chosen file no longer
exists on disk, and otherwise dispatches it at the record's volume — via
the streamed `pygame.mixer.music` path exactly when the lowercased
extension is `.mp3`, and via the direct `pygame.mixer.Sound` path
otherwise. -/
theorem C6_play_dispatch (st : AppState) (fs : List String) (pick : Nat)
    (sound_id : String) (sd : SoundEntry) (f : String)
    (hl : lookup st.sounds sound_id = some sd) (hne : sd.files ≠ [])
    (hf : f = sd.files.getD (pick % sd.files.length) "") :
    f ∈ sd.files ∧
    (f ∉ fs → play_sound st fs pick sound_id = .missingFile f) ∧
    (f ∈ fs → pyLower (splitext f).2 = ".mp3" →
      play_sound st fs pick sound_id = .musicPlay f sd.volume) ∧
    (f ∈ fs → pyLower (splitext f).2 ≠ ".mp3" →
      play_sound st fs pick sound_id = .samplePlay f sd.volume) := by
  have hlt : pick % sd.files.length < sd.files.length :=
    Nat.mod_lt _ (List.length_pos.mpr hne)
  have hb : play_sound st fs pick sound_id =
      if f ∈ fs then
        (if pyLower (splitext f).2 = ".mp3" then PlayAction.musicPlay f sd.volume
         else PlayAction.samplePlay f sd.volume)
      else PlayAction.missingFile f := by
    cases hc : sd.files with
    | nil => exact absurd hc hne
    | cons x xs =>
        simp only [play_sound, hl, hc]
        rw [← hc, ← hf]
  refine ⟨by rw [hf]; exact getD_mem_of_lt hlt, ?_, ?_, ?_⟩
  · intro h1
    rw [hb, if_neg h1]
  · intro h1 h2
    rw [hb, if_pos h1, if_pos h2]
  · intro h1 h2
    rw [hb, if_pos h1, if_neg h2]

/-- Witness for C6: a two-variation record; draw 0 picks an existing
`.mp3` file (streamed path), and with an empty disk the same draw aborts
with a missing-file report. -/
theorem C6_witness :
    play_sound ⟨[("s1", ⟨"S", none, ["sounds/S/a.mp3", "sounds/S/b.wav"], 1, "f1"⟩)], ["f1"]⟩
        ["sounds/S/a.mp3"] 0 "s1" = .musicPlay "sounds/S/a.mp3" 1 ∧
    play_sound ⟨[("s1", ⟨"S", none, ["sounds/S/a.mp3", "sounds/S/b.wav"], 1, "f1"⟩)], ["f1"]⟩
        [] 0 "s1" = .missingFile "sounds/S/a.mp3" :=
  ⟨(C6_play_dispatch _ _ _ _ ⟨"S", none, ["sounds/S/a.mp3", "sounds/S/b.wav"], 1, "f1"⟩
      "sounds/S/a.mp3" (by decide) (by decide) (by decide)).2.2.1
      (by decide) (by decide),
   (C6_play_dispatch _ _ _ _ ⟨"S", none, ["sounds/S/a.mp3", "sounds/S/b.wav"], 1, "f1"⟩
      "sounds/S/a.mp3" (by decide) (by decide) (by decide)).2.1
      (by decide)⟩

/-! ### Claim C7 (confirmed) -/

/-- Claim C7: `add_sound` with an empty (or cancelled) name prompt, or an
empty (or cancelled) hotkey prompt, is rejected before any mutation: no
storage folder is created, no files are copied, no record is added, no
hotkey is bound — the state is returned unchanged with no side effects. -/
theorem C7_empty_name_or_key_no_mutation (st : AppState)
    (fs filepaths : List String) (nameIn keyIn : Option String)
    (uuidHex : String) (bindOk : Bool)
    (h : nameIn = none ∨ nameIn = some "" ∨ keyIn = none ∨ keyIn = some "") :
    add_sound st fs filepaths nameIn keyIn uuidHex bindOk = (st, ⟨[], [], []⟩) := by
  cases filepaths with
  | nil => rfl
  | cons fp rest =>
      rcases h with h | h | h | h
      · subst h
        rfl
      · subst h
        simp [add_sound]
      · rcases nameIn with _ | name
        · rfl
        · subst h
          by_cases hn : name = "" <;> simp [add_sound, hn]
      · rcases nameIn with _ | name
        · rfl
        · subst h
          by_cases hn : name = "" <;> simp [add_sound, hn]

/-- Witness for C7: concrete creation attempts with an empty name and with
an empty hotkey leave a one-record registry untouched. -/
theorem C7_witness :
    add_sound ⟨[("a1", ⟨"A", none, [], 1, "f1"⟩)], ["f1"]⟩ ["sounds"]
        ["/t/x.wav"] (some "") (some "f2") "u1" true =
      (⟨[("a1", ⟨"A", none, [], 1, "f1"⟩)], ["f1"]⟩, ⟨[], [], []⟩) ∧
    add_sound ⟨[("a1", ⟨"A", none, [], 1, "f1"⟩)], ["f1"]⟩ ["sounds"]
        ["/t/x.wav"] (some "Boo") (some "") "u1" true =
      (⟨[("a1", ⟨"A", none, [], 1, "f1"⟩)], ["f1"]⟩, ⟨[], [], []⟩) :=
  ⟨C7_empty_name_or_key_no_mutation _ _ _ _ _ _ _ (Or.inr (Or.inl rfl)),
   C7_empty_name_or_key_no_mutation _ _ _ _ _ _ _
     (Or.inr (Or.inr (Or.inr rfl)))⟩

/-! ### Claim C10 (confirmed) -/

/-- Claim C10: rebinding a record to the hotkey it already holds (after
normalisation) is a silent no-op: `edit_keybind` returns immediately with
no confirmation prompt, no hotkey-engine calls, and no change to any
record or binding state (source lines 461-462). -/
theorem C10_rebind_same_key_noop (st : AppState) (item raw : String)
    (confirm bindOk : Bool) (sound_entry : SoundEntry)
    (hl : lookup st.sounds item = some sound_entry)
    (hub : sound_entry.key ≠ "(unbound)") (hne : sound_entry.key ≠ "")
    (hn : normKey raw = sound_entry.key) :
    edit_keybind st item (some raw) confirm bindOk = ⟨st, [], false⟩ := by
  simp [edit_keybind, hl, hub, hne, hn]

/-- Witness for C10: re-entering `" F1 "` for a record already bound to
`f1` changes nothing and emits no engine calls. -/
theorem C10_witness :
    edit_keybind ⟨[("a1", ⟨"A", none, ["x.wav"], 1, "f1"⟩)], ["f1"]⟩ "a1"
        (some " F1 ") true true =
      ⟨⟨[("a1", ⟨"A", none, ["x.wav"], 1, "f1"⟩)], ["f1"]⟩, [], false⟩ :=
  C10_rebind_same_key_noop _ _ _ _ _ ⟨"A", none, ["x.wav"], 1, "f1"⟩ (by decide)
    (by decide) (by decide) (by decide)

/-! ### Branch shapes of `edit_keybind` -/

theorem edit_keybind_unbind_shape {st : AppState} {item raw : String}
    {entry : SoundEntry} (confirm bindOk : Bool)
    (hl : lookup st.sounds item = some entry) (hz : normKey raw = "") :
    edit_keybind st item (some raw) confirm bindOk =
      if entry.key = "(unbound)" then
        ⟨⟨setKey st.sounds item "(unbound)", st.hotkey_handles⟩, [], false⟩
      else
        ⟨⟨setKey st.sounds item "(unbound)", keyPop st.hotkey_handles entry.key⟩,
         [.removeHotkey entry.key], false⟩ := by
  by_cases hob : entry.key = "(unbound)" <;>
    simp [edit_keybind, hl, hz, hob]

theorem edit_keybind_conflict_shape {st : AppState} {item raw nk cid : String}
    {entry : SoundEntry} (confirm bindOk : Bool)
    (hl : lookup st.sounds item = some entry)
    (hnk : normKey raw = nk) (hne : nk ≠ "")
    (hnoop : entry.key = "(unbound)" ∨ entry.key ≠ nk)
    (hc : findConflict st.sounds item nk = some cid) :
    edit_keybind st item (some raw) confirm bindOk =
      if confirm then
        (if bindOk then
          ⟨⟨setKey (setKey st.sounds cid "(unbound)") item nk,
            keyInsert (if entry.key = "(unbound)" then keyPop st.hotkey_handles nk
                       else keyPop (keyPop st.hotkey_handles nk) entry.key) nk⟩,
           (if entry.key = "(unbound)" then [EngineEvent.removeHotkey nk]
            else [EngineEvent.removeHotkey nk, EngineEvent.removeHotkey entry.key]) ++
             [EngineEvent.addHotkey nk true], true⟩
        else
          ⟨⟨setKey (setKey st.sounds cid "(unbound)") item "(unbound)",
            if entry.key = "(unbound)" then keyPop st.hotkey_handles nk
            else keyPop (keyPop st.hotkey_handles nk) entry.key⟩,
           (if entry.key = "(unbound)" then [EngineEvent.removeHotkey nk]
            else [EngineEvent.removeHotkey nk, EngineEvent.removeHotkey entry.key]) ++
             [EngineEvent.addHotkey nk false], true⟩)
      else ⟨st, [], true⟩ := by
  by_cases hob : entry.key = "(unbound)"
  · cases confirm <;> cases bindOk <;>
      simp [edit_keybind, hl, hnk, hne, hob, hc]
  · have hfne : ¬ (nk = entry.key) := by
      rcases hnoop with h | h
      · exact absurd h hob
      · exact fun hc2 => h hc2.symm
    cases confirm <;> cases bindOk <;>
      simp [edit_keybind, hl, hnk, hne, hob, hc, hfne]

theorem edit_keybind_noconflict_shape {st : AppState} {item raw nk : String}
    {entry : SoundEntry} (confirm bindOk : Bool)
    (hl : lookup st.sounds item = some entry)
    (hnk : normKey raw = nk) (hne : nk ≠ "")
    (hnoop : entry.key = "(unbound)" ∨ entry.key ≠ nk)
    (hc : findConflict st.sounds item nk = none) :
    edit_keybind st item (some raw) confirm bindOk =
      if bindOk then
        ⟨⟨setKey st.sounds item nk,
          keyInsert (if entry.key = "(unbound)" then st.hotkey_handles
                     else keyPop st.hotkey_handles entry.key) nk⟩,
         (if entry.key = "(unbound)" then []
          else [EngineEvent.removeHotkey entry.key]) ++
           [EngineEvent.addHotkey nk true], false⟩
      else
        ⟨⟨setKey st.sounds item "(unbound)",
          if entry.key = "(unbound)" then st.hotkey_handles
          else keyPop st.hotkey_handles entry.key⟩,
         (if entry.key = "(unbound)" then []
          else [EngineEvent.removeHotkey entry.key]) ++
           [EngineEvent.addHotkey nk false], false⟩ := by
  by_cases hob : entry.key = "(unbound)"
  · cases bindOk <;>
      simp [edit_keybind, hl, hnk, hne, hob, hc]
  · have hfne : ¬ (nk = entry.key) := by
      rcases hnoop with h | h
      · exact absurd h hob
      · exact fun hc2 => h hc2.symm
    cases bindOk <;>
      simp [edit_keybind, hl, hnk, hne, hob, hc, hfne]

theorem edit_keybind_noop_shape {st : AppState} {item raw : String}
    {entry : SoundEntry} (confirm bindOk : Bool)
    (hl : lookup st.sounds item = some entry)
    (hub : entry.key ≠ "(unbound)") (hne : entry.key ≠ "")
    (hn : normKey raw = entry.key) :
    edit_keybind st item (some raw) confirm bindOk = ⟨st, [], false⟩ := by
  simp [edit_keybind, hl, hub, hne, hn]

/-! ### Claim C4 (confirmed) -/

/-- Claim C4: rebinding when the requested hotkey is held by another
record.  With caller confirmation the conflicting record is unbound and
the edited record receives the key; if confirmation is denied nothing
changes; an empty (normalised) new hotkey unbinds the edited record; on
hotkey-engine failure the edited record ends up unbound and the failure is
reported (it appears as a failed `addHotkey` engine event; the function
still returns normally). -/
theorem C4_rebind_displacement :
    (∀ (st : AppState) (item raw nk cid : String) (entry centry : SoundEntry),
        lookup st.sounds item = some entry → normKey raw = nk → nk ≠ "" →
        (entry.key = "(unbound)" ∨ entry.key ≠ nk) →
        findConflict st.sounds item nk = some cid →
        lookup st.sounds cid = some centry →
        lookup (edit_keybind st item (some raw) true true).state.sounds cid =
            some { centry with key := "(unbound)" } ∧
        lookup (edit_keybind st item (some raw) true true).state.sounds item =
            some { entry with key := nk } ∧
        nk ∈ (edit_keybind st item (some raw) true true).state.hotkey_handles ∧
        (edit_keybind st item (some raw) true true).prompted = true ∧
        (∀ sid, sid ≠ item → sid ≠ cid →
            lookup (edit_keybind st item (some raw) true true).state.sounds sid =
              lookup st.sounds sid)) ∧
    (∀ (st : AppState) (item raw nk cid : String) (entry : SoundEntry)
        (bindOk : Bool),
        lookup st.sounds item = some entry → normKey raw = nk → nk ≠ "" →
        (entry.key = "(unbound)" ∨ entry.key ≠ nk) →
        findConflict st.sounds item nk = some cid →
        edit_keybind st item (some raw) false bindOk = ⟨st, [], true⟩) ∧
    (∀ (st : AppState) (item raw : String) (entry : SoundEntry)
        (confirm bindOk : Bool),
        lookup st.sounds item = some entry → normKey raw = "" →
        lookup (edit_keybind st item (some raw) confirm bindOk).state.sounds item =
            some { entry with key := "(unbound)" } ∧
        (∀ sid, sid ≠ item →
            lookup (edit_keybind st item (some raw) confirm bindOk).state.sounds
                sid = lookup st.sounds sid) ∧
        (edit_keybind st item (some raw) confirm bindOk).prompted = false) ∧
    (∀ (st : AppState) (item raw nk cid : String) (entry centry : SoundEntry),
        lookup st.sounds item = some entry → normKey raw = nk → nk ≠ "" →
        (entry.key = "(unbound)" ∨ entry.key ≠ nk) →
        findConflict st.sounds item nk = some cid →
        lookup st.sounds cid = some centry →
        lookup (edit_keybind st item (some raw) true false).state.sounds item =
            some { entry with key := "(unbound)" } ∧
        lookup (edit_keybind st item (some raw) true false).state.sounds cid =
            some { centry with key := "(unbound)" } ∧
        EngineEvent.addHotkey nk false ∈
          (edit_keybind st item (some raw) true false).events) ∧
    (∀ (st : AppState) (item raw nk : String) (entry : SoundEntry),
        lookup st.sounds item = some entry → normKey raw = nk → nk ≠ "" →
        (entry.key = "(unbound)" ∨ entry.key ≠ nk) →
        findConflict st.sounds item nk = none →
        lookup (edit_keybind st item (some raw) true false).state.sounds item =
            some { entry with key := "(unbound)" } ∧
        EngineEvent.addHotkey nk false ∈
          (edit_keybind st item (some raw) true false).events) := by
  refine ⟨?_, ?_, ?_, ?_, ?_⟩
  · intro st item raw nk cid entry centry hl hnk hne hnoop hc hcl
    obtain ⟨hcne, -⟩ := findConflict_some hc
    rw [edit_keybind_conflict_shape true true hl hnk hne hnoop hc]
    refine ⟨?_, ?_, ?_, rfl, ?_⟩
    · exact (lookup_setKey_ne nk hcne).trans (lookup_setKey_self "(unbound)" hcl)
    · exact lookup_setKey_self nk
        ((lookup_setKey_ne "(unbound)" (Ne.symm hcne)).trans hl)
    · exact mem_keyInsert.mpr (Or.inl rfl)
    · intro sid h1 h2
      exact (lookup_setKey_ne nk h1).trans (lookup_setKey_ne "(unbound)" h2)
  · intro st item raw nk cid entry bindOk hl hnk hne hnoop hc
    rw [edit_keybind_conflict_shape false bindOk hl hnk hne hnoop hc]
    rfl
  · intro st item raw entry confirm bindOk hl hz
    rw [edit_keybind_unbind_shape confirm bindOk hl hz]
    by_cases hob : entry.key = "(unbound)"
    · rw [if_pos hob]
      exact ⟨lookup_setKey_self "(unbound)" hl,
             fun sid h1 => lookup_setKey_ne "(unbound)" h1, rfl⟩
    · rw [if_neg hob]
      exact ⟨lookup_setKey_self "(unbound)" hl,
             fun sid h1 => lookup_setKey_ne "(unbound)" h1, rfl⟩
  · intro st item raw nk cid entry centry hl hnk hne hnoop hc hcl
    obtain ⟨hcne, -⟩ := findConflict_some hc
    rw [edit_keybind_conflict_shape true false hl hnk hne hnoop hc]
    refine ⟨?_, ?_, ?_⟩
    · exact lookup_setKey_self "(unbound)"
        ((lookup_setKey_ne "(unbound)" (Ne.symm hcne)).trans hl)
    · exact (lookup_setKey_ne "(unbound)" hcne).trans
        (lookup_setKey_self "(unbound)" hcl)
    · exact List.mem_append_right _ (List.mem_singleton_self _)
  · intro st item raw nk entry hl hnk hne hnoop hc
    rw [edit_keybind_noconflict_shape true false hl hnk hne hnoop hc]
    exact ⟨lookup_setKey_self "(unbound)" hl,
           List.mem_append_right _ (List.mem_singleton_self _)⟩

/-- Registry for the C4 witness: "Airhorn" owns `f1`, "Boo" is unbound
(the spec scenario of §8). -/
def exAirhorn : SoundEntry := ⟨"Airhorn", none, ["sounds/Airhorn/a.wav"], 1, "f1"⟩

def exBoo : SoundEntry := ⟨"Boo", none, ["sounds/Boo/b.wav"], 1, "(unbound)"⟩

def exStateC4 : AppState := ⟨[("a1", exAirhorn), ("b1", exBoo)], ["f1"]⟩

/-- Witness for C4, the spec scenario: `rebind("Boo", "f1")` with
confirmation unbinds "Airhorn" and gives "Boo" the key; a denied
confirmation changes nothing; an empty hotkey unbinds "Airhorn". -/
theorem C4_witness :
    lookup (edit_keybind exStateC4 "b1" (some "F1") true true).state.sounds "a1" =
        some { exAirhorn with key := "(unbound)" } ∧
    lookup (edit_keybind exStateC4 "b1" (some "F1") true true).state.sounds "b1" =
        some { exBoo with key := "f1" } ∧
    edit_keybind exStateC4 "b1" (some "F1") false true = ⟨exStateC4, [], true⟩ ∧
    lookup (edit_keybind exStateC4 "a1" (some "") true true).state.sounds "a1" =
        some { exAirhorn with key := "(unbound)" } :=
  ⟨(C4_rebind_displacement.1 exStateC4 "b1" "F1" "f1" "a1" exBoo exAirhorn
      (by decide) (by decide) (by decide) (Or.inl (by decide)) (by decide)
      (by decide)).1,
   (C4_rebind_displacement.1 exStateC4 "b1" "F1" "f1" "a1" exBoo exAirhorn
      (by decide) (by decide) (by decide) (Or.inl (by decide)) (by decide)
      (by decide)).2.1,
   C4_rebind_displacement.2.1 exStateC4 "b1" "F1" "f1" "a1" exBoo true
      (by decide) (by decide) (by decide) (Or.inl (by decide)) (by decide),
   (C4_rebind_displacement.2.2.1 exStateC4 "a1" "" exAirhorn true true
      (by decide) (by decide)).1⟩

/-! ### Claim C8 (corrected) -/

/-- Every record's volume lies in `[0, 1]`. -/
def VolumesOKl (l : List (String × SoundEntry)) : Prop :=
  ∀ p ∈ l, 0 ≤ p.2.volume ∧ p.2.volume ≤ 1

def VolumesOK (st : AppState) : Prop := VolumesOKl st.sounds

instance (l : List (String × SoundEntry)) : Decidable (VolumesOKl l) := by
  unfold VolumesOKl
  exact List.decidableBAll _ l

instance (st : AppState) : Decidable (VolumesOK st) := by
  unfold VolumesOK
  infer_instance

theorem volumesOKl_dictInsert {l : List (String × SoundEntry)} {k : String}
    {v : SoundEntry} (h : VolumesOKl l) (hv : 0 ≤ v.volume ∧ v.volume ≤ 1) :
    VolumesOKl (dictInsert l k v) := by
  intro q hq
  rcases mem_dictInsert hq with rfl | hq
  · exact hv
  · exact h q hq

theorem volumesOKl_setKey {l : List (String × SoundEntry)} {sid k : String}
    (h : VolumesOKl l) : VolumesOKl (setKey l sid k) := by
  intro q hq
  obtain ⟨p, hp, hq2⟩ := mem_setKey hq
  rcases hq2 with ⟨hps, h2⟩ | ⟨hps, h2⟩
  · rw [h2]
    exact h p hp
  · rw [h2]
    simpa using h p hp

theorem volumesOKl_dictErase {l : List (String × SoundEntry)} {k : String}
    (h : VolumesOKl l) : VolumesOKl (dictErase l k) :=
  fun q hq => h q (mem_of_mem_dictErase hq)

theorem volumesOK_remove_one {rmok : String → Bool}
    {acc : AppState × List String × RemoveFX} {item : String}
    (h : VolumesOK acc.1) : VolumesOK (remove_one rmok acc item).1 := by
  obtain ⟨st, fs, fx⟩ := acc
  rcases hl : lookup st.sounds item with _ | entry
  · simpa [remove_one, hl] using h
  · simp only [remove_one, hl, remove_one_state]
    exact volumesOKl_dictErase h

theorem volumesOK_remove_fold {rmok : String → Bool} :
    ∀ (selected : List String) (acc : AppState × List String × RemoveFX),
      VolumesOK acc.1 → VolumesOK ((selected.foldl (remove_one rmok) acc)).1 := by
  intro selected
  induction selected with
  | nil => exact fun acc h => h
  | cons x rest ih =>
      intro acc h
      exact ih _ (volumesOK_remove_one h)

theorem volumesOK_loadEntries {uuid : Nat → String} {bindOk : Nat → Bool} :
    ∀ (entries : List ConfigEntry) (i : Nat) (st : AppState) (failed : List String),
      VolumesOK st →
      (∀ e ∈ entries, 0 ≤ e.volume.getD 1 ∧ e.volume.getD 1 ≤ 1) →
      VolumesOK (loadEntries uuid bindOk i st failed entries).1 := by
  intro entries
  induction entries with
  | nil => exact fun i st failed h _ => h
  | cons e rest ih =>
      intro i st failed h hb
      refine ih _ _ _ ?_ fun e2 he2 => hb e2 (List.mem_cons_of_mem _ he2)
      exact volumesOKl_dictInsert h (hb e (List.mem_cons_self _ _))

/-- Claim C8, counterexample: the claim says *every* operation that sets a
volume, including load, clamps or validates into `[0,1]`; but
`load_config` stores `float(entry.get("volume", 1.0))` unvalidated (source
line 326), so loading a config entry with `"volume": 2` produces a live
record with volume `2 ∉ [0,1]`. -/
theorem C8_counterexample :
    ((load_config ⟨[], []⟩ (some (.parsed [{ volume := some 2 }]))
        (fun i => toString i) (fun _ => true)).state.sounds.map
          (fun p => p.2.volume)) = [2] ∧
    ¬ VolumesOK (load_config ⟨[], []⟩ (some (.parsed [{ volume := some 2 }]))
        (fun i => toString i) (fun _ => true)).state := by
  constructor
  · rfl
  · intro h
    have := (h _ (List.mem_cons_self _ _)).2
    norm_num [loadedRecord] at this

/-- Claim C8, amended: a record's volume lies in `[0,1]` at creation
(default `1.0`) and is kept there by `edit_volume` (the slider widget
constrains the percentage to `0..100`), while `edit_keybind` and
`remove_sound` never touch volumes; `load_config`, however, copies the
persisted volume *without* clamping or validation, so load preserves the
invariant only when every loaded entry's volume (default `1.0`) already
lies in `[0,1]` — as is the case for any file produced by `save_config`
from a state satisfying the invariant. -/
theorem C8_volume_range_amended :
    (∀ (st : AppState) (fs filepaths : List String)
        (nameIn keyIn : Option String) (uuidHex : String) (bindOk : Bool),
        VolumesOK st →
        VolumesOK (add_sound st fs filepaths nameIn keyIn uuidHex bindOk).1) ∧
    (∀ (st : AppState) (item : String) (n : ℤ),
        VolumesOK st → 0 ≤ n → n ≤ 100 → VolumesOK (edit_volume st item n)) ∧
    (∀ (st : AppState) (item : String) (nki : Option String)
        (confirm bindOk : Bool),
        VolumesOK st → VolumesOK (edit_keybind st item nki confirm bindOk).state) ∧
    (∀ (st : AppState) (selected : List String) (confirm : Bool)
        (fs : List String) (rmok : String → Bool),
        VolumesOK st → VolumesOK (remove_sound st selected confirm fs rmok).1) ∧
    (∀ (st : AppState) (entries : List ConfigEntry) (uuid : Nat → String)
        (bindOk : Nat → Bool),
        (∀ e ∈ entries, 0 ≤ e.volume.getD 1 ∧ e.volume.getD 1 ≤ 1) →
        VolumesOK (load_config st (some (.parsed entries)) uuid bindOk).state) := by
  refine ⟨?_, ?_, ?_, ?_, ?_⟩
  · intro st fs filepaths nameIn keyIn uuidHex bindOk h
    cases filepaths with
    | nil => exact h
    | cons fp fps =>
      cases nameIn with
      | none => exact h
      | some name =>
        by_cases hn : name = ""
        · simpa [add_sound, hn] using h
        · cases keyIn with
          | none => simpa [add_sound, hn] using h
          | some rawKey =>
            by_cases hr : rawKey = ""
            · simpa [add_sound, hn, hr] using h
            · simp only [add_sound, if_neg hn, if_neg hr]
              split
              · exact volumesOKl_dictInsert h (by norm_num)
              · split
                · exact volumesOKl_dictInsert h (by norm_num)
                · exact volumesOKl_dictInsert h (by norm_num)
  · intro st item n h h0 h100
    rcases hl : lookup st.sounds item with _ | e
    · simpa [edit_volume, hl] using h
    · simp only [edit_volume, hl]
      intro q hq
      obtain ⟨p, hp, hv | hv⟩ := mem_setVolume hq
      · rw [hv]
        constructor
        · exact div_nonneg (by exact_mod_cast h0) (by norm_num)
        · rw [div_le_one (by norm_num)]
          exact_mod_cast h100
      · rw [hv]
        exact h p hp
  · intro st item nki confirm bindOk h
    rcases hl : lookup st.sounds item with _ | entry
    · simpa [edit_keybind, hl] using h
    · rcases nki with _ | raw
      · simpa [edit_keybind, hl] using h
      · by_cases hz : normKey raw = ""
        · rw [edit_keybind_unbind_shape confirm bindOk hl hz]
          by_cases hob : entry.key = "(unbound)"
          · rw [if_pos hob]
            exact volumesOKl_setKey h
          · rw [if_neg hob]
            exact volumesOKl_setKey h
        · by_cases hno : entry.key = "(unbound)" ∨ entry.key ≠ normKey raw
          · rcases hcf : findConflict st.sounds item (normKey raw) with _ | cid
            · rw [edit_keybind_noconflict_shape confirm bindOk hl rfl hz hno hcf]
              cases bindOk
              · exact volumesOKl_setKey h
              · exact volumesOKl_setKey h
            · rw [edit_keybind_conflict_shape confirm bindOk hl rfl hz hno hcf]
              cases confirm
              · exact h
              · cases bindOk
                · exact volumesOKl_setKey (volumesOKl_setKey h)
                · exact volumesOKl_setKey (volumesOKl_setKey h)
          · push_neg at hno
            rw [edit_keybind_noop_shape confirm bindOk hl hno.1
              (by rw [← hno.2] at hz; exact hz) hno.2.symm]
            exact h
  · intro st selected confirm fs rmok h
    cases selected with
    | nil => exact h
    | cons x rest =>
        by_cases hcf : confirm
        · simp only [remove_sound, if_pos hcf]
          exact volumesOK_remove_fold _ _ h
        · simpa [remove_sound, hcf] using h
  · intro st entries uuid bindOk hb
    exact volumesOK_loadEntries entries 0 ⟨[], []⟩ [] (by intro p hp; simp at hp) hb

/-- Witness for the amended C8 at concrete inputs: adding a sound, setting
the slider to 37, rebinding, removing, and loading a well-ranged config
all keep volumes inside `[0,1]`. -/
theorem C8_witness :
    VolumesOK (add_sound ⟨[], []⟩ ["sounds"] ["/t/a.wav"] (some "A") (some "F1")
        "u1" true).1 ∧
    VolumesOK (edit_volume ⟨[("a1", ⟨"A", none, [], 1, "f1"⟩)], ["f1"]⟩ "a1" 37) ∧
    VolumesOK (edit_keybind ⟨[("a1", ⟨"A", none, [], 1, "f1"⟩)], ["f1"]⟩ "a1"
        (some "g") true true).state ∧
    VolumesOK (remove_sound ⟨[("a1", ⟨"A", none, [], 1, "f1"⟩)], ["f1"]⟩ ["a1"]
        true [] (fun _ => true)).1 ∧
    VolumesOK (load_config ⟨[], []⟩ (some (.parsed [{ volume := some 1 }, {}]))
        (fun i => toString i) (fun _ => true)).state :=
  ⟨C8_volume_range_amended.1 _ _ _ _ _ _ _ (by intro p hp; simp at hp),
   C8_volume_range_amended.2.1 _ _ 37 (by decide) (by decide) (by decide),
   C8_volume_range_amended.2.2.1 _ _ _ _ _ (by decide),
   C8_volume_range_amended.2.2.2.1 _ _ _ _ _ (by decide),
   C8_volume_range_amended.2.2.2.2 _ _ _ _ (by decide)⟩

/-! ### The registry well-formedness invariant

The state invariant the hotkey bookkeeping maintains: sound ids are
unique (dict keys), the handle table has no duplicates and never holds
the sentinel, no record's key is the empty string, no two records hold
the same non-sentinel hotkey, every registered handle belongs to some
record, and every bound record's key is registered. -/

def IdsNodup (st : AppState) : Prop := (st.sounds.map Prod.fst).Nodup

def KeyUniqueR (a b : String × SoundEntry) : Prop :=
  a.2.key = "(unbound)" ∨ b.2.key = "(unbound)" ∨ a.2.key ≠ b.2.key

instance : DecidableRel KeyUniqueR := fun a b => by
  unfold KeyUniqueR
  exact inferInstance

def KeyUniquel (l : List (String × SoundEntry)) : Prop := l.Pairwise KeyUniqueR

instance (l : List (String × SoundEntry)) : Decidable (KeyUniquel l) := by
  unfold KeyUniquel
  exact inferInstance

def NoEmptyKeysl (l : List (String × SoundEntry)) : Prop :=
  ∀ p ∈ l, p.2.key ≠ ""

instance (l : List (String × SoundEntry)) : Decidable (NoEmptyKeysl l) := by
  unfold NoEmptyKeysl
  exact List.decidableBAll _ l

def HandlesCover (st : AppState) : Prop :=
  ∀ k ∈ st.hotkey_handles, ∃ p ∈ st.sounds, p.2.key = k

instance (st : AppState) : Decidable (HandlesCover st) := by
  unfold HandlesCover
  exact List.decidableBAll _ st.hotkey_handles

def BoundRegistered (st : AppState) : Prop :=
  ∀ p ∈ st.sounds, p.2.key ≠ "(unbound)" → p.2.key ∈ st.hotkey_handles

instance (st : AppState) : Decidable (BoundRegistered st) := by
  unfold BoundRegistered
  exact List.decidableBAll _ st.sounds

def WF (st : AppState) : Prop :=
  IdsNodup st ∧ st.hotkey_handles.Nodup ∧ "(unbound)" ∉ st.hotkey_handles ∧
    KeyUniquel st.sounds ∧ NoEmptyKeysl st.sounds ∧ HandlesCover st ∧
    BoundRegistered st

instance (st : AppState) : Decidable (WF st) := by
  unfold WF IdsNodup
  exact inferInstance

theorem keyUniqueR_symm : Symmetric KeyUniqueR := by
  intro a b h
  rcases h with h | h | h
  · exact Or.inr (Or.inl h)
  · exact Or.inl h
  · exact Or.inr (Or.inr (Ne.symm h))

/-- Under key uniqueness, two records holding the same non-sentinel key
are the same record. -/
theorem keyUnique_eq {l : List (String × SoundEntry)} (hu : KeyUniquel l)
    {p q : String × SoundEntry} (hp : p ∈ l) (hq : q ∈ l)
    (hk : p.2.key = q.2.key) (hnp : p.2.key ≠ "(unbound)") : p = q := by
  by_cases hpq : p = q
  · exact hpq
  · rcases hu.forall keyUniqueR_symm hp hq hpq with h | h | h
    · exact absurd h hnp
    · exact absurd (hk.trans h) hnp
    · exact absurd hk h

/-- Everything left by `dictErase l k` has an id different from `k`, when
ids are unique. -/
theorem ne_of_mem_dictErase {l : List (String × SoundEntry)} {k : String}
    (hnd : (l.map Prod.fst).Nodup) {p : String × SoundEntry}
    (hp : p ∈ dictErase l k) : p.1 ≠ k := by
  have := @lookup_dictErase_self l k hnd
  exact lookup_eq_none_iff.mp this p hp

/-- In a registry with unique ids, membership determines lookup. -/
theorem lookup_eq_of_mem {l : List (String × SoundEntry)}
    (hnd : (l.map Prod.fst).Nodup) {p : String × SoundEntry} (hp : p ∈ l) :
    lookup l p.1 = some p.2 :=
  lookup_of_mem hnd hp

/-- `remove_one_state` preserves the registry invariant. -/
theorem WF_remove_one_state {st : AppState} {item : String} (h : WF st) :
    WF (remove_one_state st item) := by
  obtain ⟨hid, hhn, hhs, hku, hne, hcov, hreg⟩ := h
  rcases hl : lookup st.sounds item with _ | entry
  · simpa [remove_one_state, hl] using ⟨hid, hhn, hhs, hku, hne, hcov, hreg⟩
  · simp only [remove_one_state, hl]
    have hsub := dictErase_sublist st.sounds item
    have hidsub : List.Sublist ((dictErase st.sounds item).map Prod.fst)
        (st.sounds.map Prod.fst) := hsub.map Prod.fst
    by_cases hpop : entry.key ≠ "" ∧ entry.key ≠ "(unbound)"
    · refine ⟨hid.sublist hidsub, ?_, ?_, hku.sublist hsub,
        fun p hp => hne p (hsub.mem hp), ?_, ?_⟩
      · rw [if_pos hpop]
        exact keyPop_nodup hhn
      · rw [if_pos hpop]
        exact fun hc => hhs (mem_of_mem_keyPop hc)
      · rw [if_pos hpop]
        intro k hk
        have hkh : k ∈ st.hotkey_handles := mem_of_mem_keyPop hk
        obtain ⟨p, hp, hpk⟩ := hcov k hkh
        have hkne : k ≠ entry.key := by
          intro hc
          rw [hc] at hk
          exact not_mem_keyPop_self hhn hk
        have hpi : p.1 ≠ item := by
          intro hc
          have : lookup st.sounds p.1 = some p.2 := lookup_eq_of_mem hid hp
          rw [hc, hl] at this
          exact hkne ((Option.some.injEq _ _).mp this ▸ hpk).symm
        exact ⟨p, mem_dictErase_of_ne hp hpi, hpk⟩
      · rw [if_pos hpop]
        intro p hp hpk
        have hmem : p ∈ st.sounds := hsub.mem hp
        have hkne : p.2.key ≠ entry.key := by
          intro hc
          have : p = (item, entry) :=
            keyUnique_eq hku hmem (lookup_mem hl) hc hpk
          exact ne_of_mem_dictErase hid hp (by rw [this])
        exact mem_keyPop (hreg p hmem hpk) hkne
    · refine ⟨hid.sublist hidsub, ?_, ?_, hku.sublist hsub,
        fun p hp => hne p (hsub.mem hp), ?_, ?_⟩
      · rw [if_neg hpop]
        exact hhn
      · rw [if_neg hpop]
        exact hhs
      · rw [if_neg hpop]
        intro k hk
        obtain ⟨p, hp, hpk⟩ := hcov k hk
        have hpi : p.1 ≠ item := by
          intro hc
          have hlp : lookup st.sounds p.1 = some p.2 := lookup_eq_of_mem hid hp
          rw [hc, hl] at hlp
          have hpe : entry = p.2 := (Option.some.injEq _ _).mp hlp
          rcases not_and_or.mp hpop with hx | hx
          · rw [not_not] at hx
            exact hne p hp (by rw [← hpe]; exact hx)
          · rw [not_not] at hx
            have hks : k = "(unbound)" := by rw [← hpk, ← hpe]; exact hx
            rw [hks] at hk
            exact hhs hk
        exact ⟨p, mem_dictErase_of_ne hp hpi, hpk⟩
      · rw [if_neg hpop]
        exact fun p hp hpk => hreg p (hsub.mem hp) hpk

theorem remove_one_fst (rmok : String → Bool) (st : AppState)
    (fs : List String) (fx : RemoveFX) (x : String) :
    (remove_one rmok (st, fs, fx) x).1 = remove_one_state st x := by
  rcases hl : lookup st.sounds x with _ | e <;>
    simp [remove_one, remove_one_state, hl]

theorem remove_fold_fst (rmok : String → Bool) :
    ∀ (sel : List String) (st : AppState) (fs : List String) (fx : RemoveFX),
      ((sel.foldl (remove_one rmok) (st, fs, fx))).1 =
        sel.foldl remove_one_state st := by
  intro sel
  induction sel with
  | nil =>
      intro st fs fx
      rfl
  | cons x rest ih =>
      intro st fs fx
      rw [List.foldl_cons, List.foldl_cons]
      have htup : remove_one rmok (st, fs, fx) x =
          (remove_one_state st x, (remove_one rmok (st, fs, fx) x).2.1,
           (remove_one rmok (st, fs, fx) x).2.2) := by
        rw [← remove_one_fst rmok st fs fx x]
      rw [htup]
      exact ih _ _ _

theorem WF_removeAll :
    ∀ (sel : List String) (st : AppState), WF st →
      WF (sel.foldl remove_one_state st) := by
  intro sel
  induction sel with
  | nil => exact fun st h => h
  | cons x rest ih => exact fun st h => ih _ (WF_remove_one_state h)

theorem lookup_remove_one_state_none {st : AppState} {x sid : String}
    (h : lookup st.sounds sid = none) :
    lookup (remove_one_state st x).sounds sid = none := by
  rcases hl : lookup st.sounds x with _ | e
  · simpa [remove_one_state, hl] using h
  · simp only [remove_one_state, hl]
    rw [lookup_eq_none_iff] at h ⊢
    exact fun p hp => h p (mem_of_mem_dictErase hp)

theorem lookup_removeAll_none :
    ∀ (sel : List String) (st : AppState) (sid : String),
      lookup st.sounds sid = none →
      lookup ((sel.foldl remove_one_state st)).sounds sid = none := by
  intro sel
  induction sel with
  | nil => exact fun st sid h => h
  | cons x rest ih =>
      exact fun st sid h => ih _ _ (lookup_remove_one_state_none h)

theorem lookup_remove_one_state_self {st : AppState} {x : String}
    (hid : IdsNodup st) : lookup (remove_one_state st x).sounds x = none := by
  rcases hl : lookup st.sounds x with _ | e
  · simpa [remove_one_state, hl] using hl
  · simp only [remove_one_state, hl]
    exact lookup_dictErase_self hid

theorem lookup_remove_one_state_ne {st : AppState} {x sid : String}
    (h : sid ≠ x) :
    lookup (remove_one_state st x).sounds sid = lookup st.sounds sid := by
  rcases hl : lookup st.sounds x with _ | e
  · simp [remove_one_state, hl]
  · simp only [remove_one_state, hl]
    exact lookup_dictErase_ne h

theorem lookup_removeAll_mem :
    ∀ (sel : List String) (st : AppState), WF st →
      ∀ sid ∈ sel, lookup ((sel.foldl remove_one_state st)).sounds sid = none := by
  intro sel
  induction sel with
  | nil =>
      intro st h sid hs
      simp at hs
  | cons x rest ih =>
      intro st h sid hs
      rw [List.foldl_cons]
      rcases List.mem_cons.mp hs with rfl | hs
      · exact lookup_removeAll_none rest _ _ (lookup_remove_one_state_self h.1)
      · exact ih _ (WF_remove_one_state h) sid hs

theorem lookup_removeAll_not_mem :
    ∀ (sel : List String) (st : AppState) (sid : String), sid ∉ sel →
      lookup ((sel.foldl remove_one_state st)).sounds sid = lookup st.sounds sid := by
  intro sel
  induction sel with
  | nil => exact fun st sid _ => rfl
  | cons x rest ih =>
      intro st sid hs
      rw [List.foldl_cons]
      have hx : sid ≠ x := fun hc => hs (hc ▸ List.mem_cons_self _ _)
      have hr : sid ∉ rest := fun hc => hs (List.mem_cons_of_mem _ hc)
      rw [ih _ _ hr, lookup_remove_one_state_ne hx]

theorem handles_remove_one_state_subset {st : AppState} {x k : String}
    (hk : k ∈ (remove_one_state st x).hotkey_handles) :
    k ∈ st.hotkey_handles := by
  rcases hl : lookup st.sounds x with _ | e
  · simpa [remove_one_state, hl] using hk
  · simp only [remove_one_state, hl] at hk
    by_cases hpop : e.key ≠ "" ∧ e.key ≠ "(unbound)"
    · rw [if_pos hpop] at hk
      exact mem_of_mem_keyPop hk
    · rw [if_neg hpop] at hk
      exact hk

theorem handles_removeAll_subset :
    ∀ (sel : List String) (st : AppState) (k : String),
      k ∈ ((sel.foldl remove_one_state st)).hotkey_handles →
      k ∈ st.hotkey_handles := by
  intro sel
  induction sel with
  | nil => exact fun st k h => h
  | cons x rest ih =>
      exact fun st k h => handles_remove_one_state_subset (ih _ _ h)

theorem key_not_in_removeAll :
    ∀ (sel : List String) (st : AppState), WF st →
      ∀ p ∈ st.sounds, p.1 ∈ sel → p.2.key ≠ "(unbound)" →
        p.2.key ∉ ((sel.foldl remove_one_state st)).hotkey_handles := by
  intro sel
  induction sel with
  | nil =>
      intro st h p hp hmem
      simp at hmem
  | cons x rest ih =>
      intro st h p hp hmem hkey hkin
      rw [List.foldl_cons] at hkin
      by_cases hpx : p.1 = x
      · have hl : lookup st.sounds x = some p.2 := by
          rw [← hpx]
          exact lookup_eq_of_mem h.1 hp
        have hkne : p.2.key ≠ "" := h.2.2.2.2.1 p hp
        have hstep : (remove_one_state st x).hotkey_handles =
            keyPop st.hotkey_handles p.2.key := by
          simp [remove_one_state, hl, hkne, hkey]
        have hnotin : p.2.key ∉ (remove_one_state st x).hotkey_handles := by
          rw [hstep]
          exact not_mem_keyPop_self h.2.1
        exact hnotin (handles_removeAll_subset rest _ _ hkin)
      · have hp' : p ∈ (remove_one_state st x).sounds := by
          rcases hl : lookup st.sounds x with _ | e
          · simpa [remove_one_state, hl] using hp
          · simp only [remove_one_state, hl]
            exact mem_dictErase_of_ne hp hpx
        have hmem' : p.1 ∈ rest := by
          rcases List.mem_cons.mp hmem with hc | hc
          · exact absurd hc hpx
          · exact hc
        exact ih (remove_one_state st x) (WF_remove_one_state h) p hp' hmem'
          hkey hkin

/-! ### Claim C9 (confirmed) -/

/-- Claim C9: with the removal confirmed, every selected id that is in the
registry is erased (lookups on it become `NotFound`) and its hotkey
binding is released, regardless of whether the recursive folder deletion
succeeds (the in-memory result is literally independent of the
`shutil.rmtree` oracle and of what exists on disk); ids absent from the
registry, and unselected ids, are untouched. -/
theorem C9_remove_erases_and_releases (st : AppState)
    (selected fs : List String) (rmok : String → Bool) (h : WF st) :
    (∀ sid ∈ selected,
        lookup (remove_sound st selected true fs rmok).1.sounds sid = none) ∧
    (∀ sid, sid ∉ selected →
        lookup (remove_sound st selected true fs rmok).1.sounds sid =
          lookup st.sounds sid) ∧
    (∀ p ∈ st.sounds, p.1 ∈ selected → p.2.key ≠ "(unbound)" →
        p.2.key ∉ (remove_sound st selected true fs rmok).1.hotkey_handles) ∧
    (∀ k ∈ (remove_sound st selected true fs rmok).1.hotkey_handles,
        k ∈ st.hotkey_handles) ∧
    (∀ (fs2 : List String) (rmok2 : String → Bool),
        (remove_sound st selected true fs2 rmok2).1 =
          (remove_sound st selected true fs rmok).1) := by
  cases selected with
  | nil =>
      exact ⟨by simp, fun sid _ => rfl, by simp, fun k hk => hk,
        fun fs2 rmok2 => rfl⟩
  | cons x rest =>
      have hfold : ∀ (fs3 : List String) (rmok3 : String → Bool),
          (remove_sound st (x :: rest) true fs3 rmok3).1 =
            (x :: rest).foldl remove_one_state st := by
        intro fs3 rmok3
        exact remove_fold_fst rmok3 (x :: rest) st fs3 ⟨[], []⟩
      refine ⟨?_, ?_, ?_, ?_, ?_⟩
      · intro sid hs
        rw [hfold fs rmok]
        exact lookup_removeAll_mem _ _ h sid hs
      · intro sid hs
        rw [hfold fs rmok]
        exact lookup_removeAll_not_mem _ _ _ hs
      · intro p hp hmem hkey
        rw [hfold fs rmok]
        exact key_not_in_removeAll _ _ h p hp hmem hkey
      · intro k hk
        rw [hfold fs rmok] at hk
        exact handles_removeAll_subset _ _ _ hk
      · intro fs2 rmok2
        rw [hfold fs rmok, hfold fs2 rmok2]

/-- Witness for C9: removing a bound record and an unknown id with the
folder deletion failing still erases the record, releases `f1`, and leaves
the other record alone. -/
theorem C9_witness :
    lookup (remove_sound
        ⟨[("a1", ⟨"A", some "sounds/A", ["x.wav"], 1, "f1"⟩),
          ("b1", ⟨"B", none, [], 1, "(unbound)"⟩)], ["f1"]⟩
        ["a1", "zz"] true ["sounds/A"] (fun _ => false)).1.sounds "a1" = none ∧
    lookup (remove_sound
        ⟨[("a1", ⟨"A", some "sounds/A", ["x.wav"], 1, "f1"⟩),
          ("b1", ⟨"B", none, [], 1, "(unbound)"⟩)], ["f1"]⟩
        ["a1", "zz"] true ["sounds/A"] (fun _ => false)).1.sounds "b1" =
      some ⟨"B", none, [], 1, "(unbound)"⟩ ∧
    "f1" ∉ (remove_sound
        ⟨[("a1", ⟨"A", some "sounds/A", ["x.wav"], 1, "f1"⟩),
          ("b1", ⟨"B", none, [], 1, "(unbound)"⟩)], ["f1"]⟩
        ["a1", "zz"] true ["sounds/A"] (fun _ => false)).1.hotkey_handles :=
  ⟨(C9_remove_erases_and_releases _ _ _ _ (by decide)).1 "a1" (by decide),
   by
    rw [(C9_remove_erases_and_releases _ _ ["sounds/A"] (fun _ => false)
      (by decide)).2.1 "b1" (by decide)]
    decide,
   (C9_remove_erases_and_releases _ _ _ _ (by decide)).2.2.1
     ("a1", ⟨"A", some "sounds/A", ["x.wav"], 1, "f1"⟩) (by decide) (by decide)
     (by decide)⟩

/-! ### Preservation of the invariant by the remaining operations -/

theorem lookup_dictInsert_self {l : List (String × SoundEntry)} {k : String}
    {v : SoundEntry} : lookup (dictInsert l k v) k = some v := by
  induction l with
  | nil => simp [dictInsert, lookup]
  | cons p rest ih =>
      by_cases hp : p.1 = k
      · simp [dictInsert, hp, lookup]
      · simp [dictInsert, hp, lookup, ih]

theorem ids_append_nodup {l : List (String × SoundEntry)} {sid : String}
    {v : SoundEntry} (hid : (l.map Prod.fst).Nodup)
    (hfresh : ∀ p ∈ l, p.1 ≠ sid) :
    ((l ++ [(sid, v)]).map Prod.fst).Nodup := by
  rw [List.map_append]
  rw [List.nodup_append]
  refine ⟨hid, List.nodup_singleton _, ?_⟩
  intro a ha
  rcases List.mem_map.mp ha with ⟨p, hp, hpa⟩
  simp only [List.map_cons, List.map_nil, List.mem_singleton]
  intro hc
  exact hfresh p hp (by rw [← hpa] at hc; exact hc)

theorem keyUniquel_append {l : List (String × SoundEntry)} {sid : String}
    {v : SoundEntry} (hu : KeyUniquel l)
    (hv : ∀ p ∈ l, KeyUniqueR p (sid, v)) :
    KeyUniquel (l ++ [(sid, v)]) := by
  rw [KeyUniquel, List.pairwise_append]
  exact ⟨hu, List.pairwise_singleton _ _, fun a ha b hb => by
    rw [List.mem_singleton.mp hb]
    exact hv a ha⟩

theorem keyUniquel_setKey_unbound {l : List (String × SoundEntry)}
    {sid : String} (hu : KeyUniquel l) :
    KeyUniquel (setKey l sid "(unbound)") := by
  rw [KeyUniquel, setKey, List.pairwise_map]
  refine hu.imp ?_
  intro a b h
  by_cases ha : a.1 = sid
  · exact Or.inl (by simp [ha])
  · by_cases hb : b.1 = sid
    · exact Or.inr (Or.inl (by simp [hb]))
    · simpa [ha, hb] using h

theorem keyUniquel_setKey {l : List (String × SoundEntry)} {sid nk : String}
    (hid : (l.map Prod.fst).Nodup) (hu : KeyUniquel l)
    (hothers : ∀ p ∈ l, p.1 ≠ sid → p.2.key = "(unbound)" ∨ p.2.key ≠ nk) :
    KeyUniquel (setKey l sid nk) := by
  induction l with
  | nil => exact List.Pairwise.nil
  | cons p rest ih =>
      rw [setKey_cons]
      obtain ⟨hpn, hrest⟩ := ids_nodup_cons hid
      rw [KeyUniquel, List.pairwise_cons] at hu
      refine List.Pairwise.cons ?_ (ih hrest hu.2
        fun q hq hqs => hothers q (List.mem_cons_of_mem _ hq) hqs)
      intro b hb
      obtain ⟨q, hq, hbq⟩ := mem_setKey hb
      by_cases hps : p.1 = sid
      · rw [if_pos hps]
        have hqs : q.1 ≠ sid := by
          intro hc
          exact hpn (List.mem_map.mpr ⟨q, hq, hc.trans hps.symm⟩)
        rcases hbq with ⟨-, hb2⟩ | ⟨hc, -⟩
        · rcases hothers q (List.mem_cons_of_mem _ hq) hqs with hx | hx
          · exact Or.inr (Or.inl (by rw [hb2]; exact hx))
          · exact Or.inr (Or.inr (by
              simp only []
              rw [hb2]
              exact fun hc2 => hx (hc2.symm)))
        · exact absurd hc hqs
      · rw [if_neg hps]
        rcases hbq with ⟨-, hb2⟩ | ⟨hqs, hb2⟩
        · rw [hb2]
          exact hu.1 q hq
        · rcases hothers p (List.mem_cons_self _ _) hps with hx | hx
          · exact Or.inl hx
          · exact Or.inr (Or.inr (by
              rw [hb2]
              simpa using hx))

theorem noEmptyKeysl_setKey {l : List (String × SoundEntry)} {sid k : String}
    (h : NoEmptyKeysl l) (hk : k ≠ "") : NoEmptyKeysl (setKey l sid k) := by
  intro q hq
  obtain ⟨p, hp, hq2⟩ := mem_setKey hq
  rcases hq2 with ⟨-, h2⟩ | ⟨-, h2⟩
  · rw [h2]
    exact h p hp
  · rw [h2]
    exact hk

theorem noEmptyKeysl_append {l : List (String × SoundEntry)} {sid : String}
    {v : SoundEntry} (h : NoEmptyKeysl l) (hv : v.key ≠ "") :
    NoEmptyKeysl (l ++ [(sid, v)]) := by
  intro q hq
  rcases List.mem_append.mp hq with hq | hq
  · exact h q hq
  · rw [List.mem_singleton.mp hq]
    exact hv

theorem WF_add_unbound {st : AppState} {sid : String} {v : SoundEntry}
    (h : WF st) (hfresh : ∀ p ∈ st.sounds, p.1 ≠ sid)
    (hv : v.key = "(unbound)") :
    WF ⟨dictInsert st.sounds sid v, st.hotkey_handles⟩ := by
  obtain ⟨hid, hhn, hhs, hku, hne, hcov, hreg⟩ := h
  rw [WF]
  simp only [dictInsert_of_not_mem hfresh]
  refine ⟨ids_append_nodup hid hfresh, hhn, hhs,
    keyUniquel_append hku fun p hp => Or.inr (Or.inl hv), ?_, ?_, ?_⟩
  · exact noEmptyKeysl_append hne (by rw [hv]; exact fun hc => by simp at hc)
  · intro k hk
    obtain ⟨p, hp, hpk⟩ := hcov k hk
    exact ⟨p, List.mem_append_left _ hp, hpk⟩
  · intro q hq hqk
    rcases List.mem_append.mp hq with hq | hq
    · exact hreg q hq hqk
    · rw [List.mem_singleton.mp hq] at hqk
      exact absurd hv hqk

theorem WF_add_bound {st : AppState} {sid k : String} {v : SoundEntry}
    (h : WF st) (hfresh : ∀ p ∈ st.sounds, p.1 ≠ sid)
    (hv : v.key = k) (hk0 : k ≠ "") (hks : k ≠ "(unbound)")
    (hkh : k ∉ st.hotkey_handles) :
    WF ⟨dictInsert st.sounds sid v, keyInsert st.hotkey_handles k⟩ := by
  obtain ⟨hid, hhn, hhs, hku, hne, hcov, hreg⟩ := h
  rw [WF]
  simp only [dictInsert_of_not_mem hfresh]
  refine ⟨ids_append_nodup hid hfresh, keyInsert_nodup hhn, ?_, ?_, ?_, ?_, ?_⟩
  · intro hc
    rcases mem_keyInsert.mp hc with hc | hc
    · exact hks hc.symm
    · exact hhs hc
  · refine keyUniquel_append hku fun p hp => ?_
    by_cases hps : p.2.key = "(unbound)"
    · exact Or.inl hps
    · refine Or.inr (Or.inr ?_)
      intro hc
      rw [hv] at hc
      exact hkh (hc ▸ hreg p hp hps)
  · exact noEmptyKeysl_append hne (hv ▸ hk0)
  · intro k2 hk2
    rcases mem_keyInsert.mp hk2 with rfl | hk2
    · exact ⟨(sid, v), List.mem_append_right _ (List.mem_singleton_self _), hv⟩
    · obtain ⟨p, hp, hpk⟩ := hcov k2 hk2
      exact ⟨p, List.mem_append_left _ hp, hpk⟩
  · intro q hq hqk
    rcases List.mem_append.mp hq with hq | hq
    · exact mem_keyInsert.mpr (Or.inr (hreg q hq hqk))
    · rw [List.mem_singleton.mp hq, hv]
      exact mem_keyInsert.mpr (Or.inl rfl)

/-- `add_sound` preserves the registry invariant (for a fresh generated id
and a normalised hotkey that is neither empty nor the literal sentinel
string). -/
theorem WF_add_sound {st : AppState} (fs filepaths : List String)
    {name rawKey : String} (uuidHex : String) (bindOk : Bool) (h : WF st)
    (hkey : normKey rawKey ≠ "") (hsent : normKey rawKey ≠ "(unbound)")
    (hfresh : ∀ p ∈ st.sounds, p.1 ≠ genId name uuidHex) :
    WF (add_sound st fs filepaths (some name) (some rawKey) uuidHex bindOk).1 := by
  cases filepaths with
  | nil => exact h
  | cons fp fps =>
    by_cases hn : name = ""
    · simpa [add_sound, hn] using h
    · have hr : rawKey ≠ "" := by
        intro hc
        rw [hc] at hkey
        exact hkey rfl
      by_cases hmem : normKey rawKey ∈ st.hotkey_handles
      · simp only [add_sound, if_neg hn, if_neg hr, if_pos hmem]
        exact WF_add_unbound h hfresh rfl
      · cases bindOk
        · simp only [add_sound, if_neg hn, if_neg hr, if_neg hmem,
            Bool.false_eq_true, if_false]
          exact WF_add_unbound h hfresh rfl
        · simp only [add_sound, if_neg hn, if_neg hr, if_neg hmem, if_true]
          exact WF_add_bound h hfresh rfl hkey hsent hmem

/-- With unique ids, a member whose id is `item` is the record `lookup`
returns for `item`. -/
theorem entry_of_id {l : List (String × SoundEntry)}
    (hid : (l.map Prod.fst).Nodup) {p : String × SoundEntry} (hp : p ∈ l)
    {item : String} {entry : SoundEntry} (hl : lookup l item = some entry)
    (hc : p.1 = item) : p.2 = entry := by
  have hthis := lookup_eq_of_mem hid hp
  rw [hc, hl] at hthis
  exact ((Option.some.injEq _ _).mp hthis).symm

/-- Records with different ids hold different keys, when the reference
record's key is not the sentinel. -/
theorem key_ne_of_ne_id {l : List (String × SoundEntry)} (hku : KeyUniquel l)
    {p q : String × SoundEntry} (hp : p ∈ l) (hq : q ∈ l)
    (hqs : q.2.key ≠ "(unbound)") (hne2 : p.1 ≠ q.1) : p.2.key ≠ q.2.key := by
  intro hc
  have heq : p = q := keyUnique_eq hku hp hq hc (by rw [hc]; exact hqs)
  exact hne2 (by rw [heq])

/-- Endstate of the unbind branch when the record was already unbound. -/
theorem WF_unbind_already {st : AppState} {item : String} {entry : SoundEntry}
    (h : WF st) (hl : lookup st.sounds item = some entry)
    (hob : entry.key = "(unbound)") :
    WF ⟨setKey st.sounds item "(unbound)", st.hotkey_handles⟩ := by
  obtain ⟨hid, hhn, hhs, hku, hne, hcov, hreg⟩ := h
  refine ⟨?_, hhn, hhs, keyUniquel_setKey_unbound hku,
    noEmptyKeysl_setKey hne (by intro hc; simp at hc), ?_, ?_⟩
  · show ((setKey st.sounds item "(unbound)").map Prod.fst).Nodup
    rw [setKey_map_fst]
    exact hid
  · intro k hk
    obtain ⟨p, hp, hpk⟩ := hcov k hk
    have hpi : p.1 ≠ item := by
      intro hc
      rw [entry_of_id hid hp hl hc, hob] at hpk
      rw [← hpk] at hk
      exact hhs hk
    exact ⟨p, mem_setKey_of_ne hp hpi, hpk⟩
  · intro q hq hqk
    obtain ⟨p, hp, hq2⟩ := mem_setKey hq
    rcases hq2 with ⟨hps, h2⟩ | ⟨hps, h2⟩
    · rw [h2]
      exact hreg p hp (by rw [← h2]; exact hqk)
    · rw [h2] at hqk
      simp at hqk

/-- Endstate of the unbind branch when the record held a key. -/
theorem WF_unbind_bound {st : AppState} {item : String} {entry : SoundEntry}
    (h : WF st) (hl : lookup st.sounds item = some entry)
    (hob : entry.key ≠ "(unbound)") :
    WF ⟨setKey st.sounds item "(unbound)", keyPop st.hotkey_handles entry.key⟩ := by
  obtain ⟨hid, hhn, hhs, hku, hne, hcov, hreg⟩ := h
  have hitem : (item, entry) ∈ st.sounds := lookup_mem hl
  refine ⟨?_, keyPop_nodup hhn, fun hc => hhs (mem_of_mem_keyPop hc),
    keyUniquel_setKey_unbound hku,
    noEmptyKeysl_setKey hne (by intro hc; simp at hc), ?_, ?_⟩
  · show ((setKey st.sounds item "(unbound)").map Prod.fst).Nodup
    rw [setKey_map_fst]
    exact hid
  · intro k hk
    have hkh : k ∈ st.hotkey_handles := mem_of_mem_keyPop hk
    have hkne : k ≠ entry.key := by
      intro hc
      rw [hc] at hk
      exact not_mem_keyPop_self hhn hk
    obtain ⟨p, hp, hpk⟩ := hcov k hkh
    have hpi : p.1 ≠ item := by
      intro hc
      rw [entry_of_id hid hp hl hc] at hpk
      exact hkne hpk.symm
    exact ⟨p, mem_setKey_of_ne hp hpi, hpk⟩
  · intro q hq hqk
    obtain ⟨p, hp, hq2⟩ := mem_setKey hq
    rcases hq2 with ⟨hps, h2⟩ | ⟨hps, h2⟩
    · rw [h2]
      have hpk : p.2.key ≠ entry.key :=
        key_ne_of_ne_id hku hp hitem hob hps
      exact mem_keyPop (hreg p hp (by rw [← h2]; exact hqk)) hpk
    · rw [h2] at hqk
      simp at hqk

/-- Endstate of a successful direct rebind (no conflicting record). -/
theorem WF_rebind_noconflict_ok {st : AppState} {item nk : String}
    {entry : SoundEntry} (h : WF st) (hl : lookup st.sounds item = some entry)
    (hk0 : nk ≠ "") (hks : nk ≠ "(unbound)")
    (hno : ∀ p ∈ st.sounds, p.1 ≠ item → p.2.key ≠ nk) :
    WF ⟨setKey st.sounds item nk,
        keyInsert (if entry.key = "(unbound)" then st.hotkey_handles
                   else keyPop st.hotkey_handles entry.key) nk⟩ := by
  obtain ⟨hid, hhn, hhs, hku, hne, hcov, hreg⟩ := h
  have hitem : (item, entry) ∈ st.sounds := lookup_mem hl
  have hids : ((setKey st.sounds item nk).map Prod.fst).Nodup := by
    rw [setKey_map_fst]
    exact hid
  have hkul : KeyUniquel (setKey st.sounds item nk) :=
    keyUniquel_setKey hid hku fun p hp hpi => Or.inr (hno p hp hpi)
  have hnel : NoEmptyKeysl (setKey st.sounds item nk) :=
    noEmptyKeysl_setKey hne hk0
  by_cases hob : entry.key = "(unbound)"
  · rw [if_pos hob]
    refine ⟨hids, keyInsert_nodup hhn, ?_, hkul, hnel, ?_, ?_⟩
    · intro hc
      rcases mem_keyInsert.mp hc with hc | hc
      · exact hks hc.symm
      · exact hhs hc
    · intro k hk
      rcases mem_keyInsert.mp hk with rfl | hk
      · exact ⟨(item, { entry with key := k }), mem_setKey_self hitem rfl, rfl⟩
      · obtain ⟨p, hp, hpk⟩ := hcov k hk
        have hpi : p.1 ≠ item := by
          intro hc
          rw [entry_of_id hid hp hl hc, hob] at hpk
          rw [← hpk] at hk
          exact hhs hk
        exact ⟨p, mem_setKey_of_ne hp hpi, hpk⟩
    · intro q hq hqk
      obtain ⟨p, hp, hq2⟩ := mem_setKey hq
      rcases hq2 with ⟨hps, h2⟩ | ⟨hps, h2⟩
      · rw [h2]
        exact mem_keyInsert.mpr (Or.inr (hreg p hp (by rw [← h2]; exact hqk)))
      · rw [h2]
        exact mem_keyInsert.mpr (Or.inl rfl)
  · rw [if_neg hob]
    refine ⟨hids, keyInsert_nodup (keyPop_nodup hhn), ?_, hkul, hnel, ?_, ?_⟩
    · intro hc
      rcases mem_keyInsert.mp hc with hc | hc
      · exact hks hc.symm
      · exact hhs (mem_of_mem_keyPop hc)
    · intro k hk
      rcases mem_keyInsert.mp hk with rfl | hk
      · exact ⟨(item, { entry with key := k }), mem_setKey_self hitem rfl, rfl⟩
      · have hkh : k ∈ st.hotkey_handles := mem_of_mem_keyPop hk
        have hkK : k ≠ entry.key := by
          intro hc
          rw [hc] at hk
          exact not_mem_keyPop_self hhn hk
        obtain ⟨p, hp, hpk⟩ := hcov k hkh
        have hpi : p.1 ≠ item := by
          intro hc
          rw [entry_of_id hid hp hl hc] at hpk
          exact hkK hpk.symm
        exact ⟨p, mem_setKey_of_ne hp hpi, hpk⟩
    · intro q hq hqk
      obtain ⟨p, hp, hq2⟩ := mem_setKey hq
      rcases hq2 with ⟨hps, h2⟩ | ⟨hps, h2⟩
      · rw [h2]
        have hpK : p.2.key ≠ entry.key := key_ne_of_ne_id hku hp hitem hob hps
        exact mem_keyInsert.mpr
          (Or.inr (mem_keyPop (hreg p hp (by rw [← h2]; exact hqk)) hpK))
      · rw [h2]
        exact mem_keyInsert.mpr (Or.inl rfl)

/-- Shared setup for the two displacement endstates: for any final key
value `kI` given to the edited record, the doubly-updated registry keeps
unique ids, and records away from `item` and `cid` survive untouched. -/
theorem conflict_survives {st : AppState} {item nk cid kI : String}
    {centry : SoundEntry} (hid : IdsNodup st) (hcl : (cid, centry) ∈ st.sounds)
    (hck : centry.key = nk) {p : String × SoundEntry} (hp : p ∈ st.sounds)
    (hpnk : p.2.key ≠ nk) (hpi : p.1 ≠ item) :
    p ∈ setKey (setKey st.sounds cid "(unbound)") item kI := by
  have hpc : p.1 ≠ cid := by
    intro hc
    rw [entry_of_id hid hp (lookup_eq_of_mem hid hcl) hc, hck] at hpnk
    exact hpnk rfl
  exact mem_setKey_of_ne (mem_setKey_of_ne hp hpc) hpi

/-- Endstate of a confirmed displacement whose re-registration succeeds. -/
theorem WF_conflict_ok {st : AppState} {item nk cid : String}
    {entry centry : SoundEntry} (h : WF st)
    (hl : lookup st.sounds item = some entry)
    (hcl : (cid, centry) ∈ st.sounds) (hck : centry.key = nk)
    (hcne : cid ≠ item) (hk0 : nk ≠ "") (hks : nk ≠ "(unbound)") :
    WF ⟨setKey (setKey st.sounds cid "(unbound)") item nk,
        keyInsert (if entry.key = "(unbound)" then keyPop st.hotkey_handles nk
                   else keyPop (keyPop st.hotkey_handles nk) entry.key) nk⟩ := by
  obtain ⟨hid, hhn, hhs, hku, hne, hcov, hreg⟩ := h
  have hitem : (item, entry) ∈ st.sounds := lookup_mem hl
  have hlc : lookup st.sounds cid = some centry := lookup_eq_of_mem hid hcl
  have hcks : centry.key ≠ "(unbound)" := by rw [hck]; exact hks
  have hidI : ((setKey st.sounds cid "(unbound)").map Prod.fst).Nodup := by
    rw [setKey_map_fst]
    exact hid
  have hkuI : KeyUniquel (setKey st.sounds cid "(unbound)") :=
    keyUniquel_setKey_unbound hku
  have hneI : NoEmptyKeysl (setKey st.sounds cid "(unbound)") :=
    noEmptyKeysl_setKey hne (by intro hc; simp at hc)
  have hitemI : (item, entry) ∈ setKey st.sounds cid "(unbound)" :=
    mem_setKey_of_ne hitem (Ne.symm hcne)
  have hnoI : ∀ p ∈ setKey st.sounds cid "(unbound)", p.1 ≠ item →
      p.2.key = "(unbound)" ∨ p.2.key ≠ nk := by
    intro p hp hpi
    obtain ⟨q, hq, hq2⟩ := mem_setKey hp
    rcases hq2 with ⟨hqs, h2⟩ | ⟨hqs, h2⟩
    · refine Or.inr ?_
      rw [h2, ← hck]
      exact key_ne_of_ne_id hku hq hcl hcks hqs
    · exact Or.inl (by rw [h2])
  have hids : ((setKey (setKey st.sounds cid "(unbound)") item nk).map
      Prod.fst).Nodup := by
    rw [setKey_map_fst, setKey_map_fst]
    exact hid
  have hkul : KeyUniquel (setKey (setKey st.sounds cid "(unbound)") item nk) :=
    keyUniquel_setKey hidI hkuI hnoI
  have hnel : NoEmptyKeysl (setKey (setKey st.sounds cid "(unbound)") item nk) :=
    noEmptyKeysl_setKey hneI hk0
  -- the record chase shared by both `hob` cases of the registered direction
  have hchase : ∀ q ∈ setKey (setKey st.sounds cid "(unbound)") item nk,
      q.2.key ≠ "(unbound)" → q.2.key = nk ∨
        ∃ p2 ∈ st.sounds, p2.1 ≠ cid ∧ p2.1 ≠ item ∧ q.2.key = p2.2.key := by
    intro q hq hqk
    obtain ⟨p, hp, hq2⟩ := mem_setKey hq
    rcases hq2 with ⟨hps, h2⟩ | ⟨hps, h2⟩
    · obtain ⟨p2, hp2, hp22⟩ := mem_setKey hp
      rcases hp22 with ⟨hp2s, h22⟩ | ⟨hp2s, h22⟩
      · refine Or.inr ⟨p2, hp2, hp2s, ?_, by rw [h2, h22]⟩
        rw [h22] at hps
        exact hps
      · rw [h2, h22] at hqk
        simp at hqk
    · exact Or.inl (by rw [h2])
  by_cases hob : entry.key = "(unbound)"
  · rw [if_pos hob]
    refine ⟨hids, keyInsert_nodup (keyPop_nodup hhn), ?_, hkul, hnel, ?_, ?_⟩
    · intro hc
      rcases mem_keyInsert.mp hc with hc | hc
      · exact hks hc.symm
      · exact hhs (mem_of_mem_keyPop hc)
    · intro k hk
      rcases mem_keyInsert.mp hk with rfl | hk
      · exact ⟨(item, { entry with key := k }), mem_setKey_self hitemI rfl, rfl⟩
      · have hkh : k ∈ st.hotkey_handles := mem_of_mem_keyPop hk
        have hknk : k ≠ nk := by
          intro hc
          rw [hc] at hk
          exact not_mem_keyPop_self hhn hk
        obtain ⟨p, hp, hpk⟩ := hcov k hkh
        have hpi : p.1 ≠ item := by
          intro hc
          rw [entry_of_id hid hp hl hc, hob] at hpk
          rw [← hpk] at hkh
          exact hhs hkh
        exact ⟨p, conflict_survives hid hcl hck hp (by rw [hpk]; exact hknk)
          hpi, hpk⟩
    · intro q hq hqk
      rcases hchase q hq hqk with hqnk | ⟨p2, hp2, hpc, hpi, hqp⟩
      · rw [hqnk]
        exact mem_keyInsert.mpr (Or.inl rfl)
      · have hmem2 : p2.2.key ∈ st.hotkey_handles :=
          hreg p2 hp2 (by rw [← hqp]; exact hqk)
        have hnk2 : p2.2.key ≠ nk := by
          rw [← hck]
          exact key_ne_of_ne_id hku hp2 hcl hcks hpc
        rw [hqp]
        exact mem_keyInsert.mpr (Or.inr (mem_keyPop hmem2 hnk2))
  · rw [if_neg hob]
    refine ⟨hids, keyInsert_nodup (keyPop_nodup (keyPop_nodup hhn)), ?_,
      hkul, hnel, ?_, ?_⟩
    · intro hc
      rcases mem_keyInsert.mp hc with hc | hc
      · exact hks hc.symm
      · exact hhs (mem_of_mem_keyPop (mem_of_mem_keyPop hc))
    · intro k hk
      rcases mem_keyInsert.mp hk with rfl | hk
      · exact ⟨(item, { entry with key := k }), mem_setKey_self hitemI rfl, rfl⟩
      · have hk1 : k ∈ keyPop st.hotkey_handles nk := mem_of_mem_keyPop hk
        have hkh : k ∈ st.hotkey_handles := mem_of_mem_keyPop hk1
        have hknk : k ≠ nk := by
          intro hc
          rw [hc] at hk1
          exact not_mem_keyPop_self hhn hk1
        have hkK : k ≠ entry.key := by
          intro hc
          rw [hc] at hk
          exact not_mem_keyPop_self (keyPop_nodup hhn) hk
        obtain ⟨p, hp, hpk⟩ := hcov k hkh
        have hpi : p.1 ≠ item := by
          intro hc
          rw [entry_of_id hid hp hl hc] at hpk
          exact hkK hpk.symm
        exact ⟨p, conflict_survives hid hcl hck hp (by rw [hpk]; exact hknk)
          hpi, hpk⟩
    · intro q hq hqk
      rcases hchase q hq hqk with hqnk | ⟨p2, hp2, hpc, hpi, hqp⟩
      · rw [hqnk]
        exact mem_keyInsert.mpr (Or.inl rfl)
      · have hmem2 : p2.2.key ∈ st.hotkey_handles :=
          hreg p2 hp2 (by rw [← hqp]; exact hqk)
        have hnk2 : p2.2.key ≠ nk := by
          rw [← hck]
          exact key_ne_of_ne_id hku hp2 hcl hcks hpc
        have hK2 : p2.2.key ≠ entry.key :=
          key_ne_of_ne_id hku hp2 hitem hob hpi
        rw [hqp]
        exact mem_keyInsert.mpr
          (Or.inr (mem_keyPop (mem_keyPop hmem2 hnk2) hK2))

/-- Endstate of a confirmed displacement whose re-registration fails: the
edited record ends up unbound, the conflicting record stays unbound. -/
theorem WF_conflict_fail {st : AppState} {item nk cid : String}
    {entry centry : SoundEntry} (h : WF st)
    (hl : lookup st.sounds item = some entry)
    (hcl : (cid, centry) ∈ st.sounds) (hck : centry.key = nk)
    (hcne : cid ≠ item) (hks : nk ≠ "(unbound)") :
    WF ⟨setKey (setKey st.sounds cid "(unbound)") item "(unbound)",
        if entry.key = "(unbound)" then keyPop st.hotkey_handles nk
        else keyPop (keyPop st.hotkey_handles nk) entry.key⟩ := by
  obtain ⟨hid, hhn, hhs, hku, hne, hcov, hreg⟩ := h
  have hitem : (item, entry) ∈ st.sounds := lookup_mem hl
  have hcks : centry.key ≠ "(unbound)" := by rw [hck]; exact hks
  have hidI : ((setKey st.sounds cid "(unbound)").map Prod.fst).Nodup := by
    rw [setKey_map_fst]
    exact hid
  have hids : ((setKey (setKey st.sounds cid "(unbound)") item
      "(unbound)").map Prod.fst).Nodup := by
    rw [setKey_map_fst, setKey_map_fst]
    exact hid
  have hkul : KeyUniquel (setKey (setKey st.sounds cid "(unbound)") item
      "(unbound)") :=
    keyUniquel_setKey_unbound (keyUniquel_setKey_unbound hku)
  have hnel : NoEmptyKeysl (setKey (setKey st.sounds cid "(unbound)") item
      "(unbound)") :=
    noEmptyKeysl_setKey (noEmptyKeysl_setKey hne (by intro hc; simp at hc))
      (by intro hc; simp at hc)
  have hchase : ∀ q ∈ setKey (setKey st.sounds cid "(unbound)") item
      "(unbound)", q.2.key ≠ "(unbound)" →
        ∃ p2 ∈ st.sounds, p2.1 ≠ cid ∧ p2.1 ≠ item ∧ q.2.key = p2.2.key := by
    intro q hq hqk
    obtain ⟨p, hp, hq2⟩ := mem_setKey hq
    rcases hq2 with ⟨hps, h2⟩ | ⟨hps, h2⟩
    · obtain ⟨p2, hp2, hp22⟩ := mem_setKey hp
      rcases hp22 with ⟨hp2s, h22⟩ | ⟨hp2s, h22⟩
      · refine ⟨p2, hp2, hp2s, ?_, by rw [h2, h22]⟩
        rw [h22] at hps
        exact hps
      · rw [h2, h22] at hqk
        simp at hqk
    · rw [h2] at hqk
      simp at hqk
  by_cases hob : entry.key = "(unbound)"
  · rw [if_pos hob]
    refine ⟨hids, keyPop_nodup hhn, fun hc => hhs (mem_of_mem_keyPop hc),
      hkul, hnel, ?_, ?_⟩
    · intro k hk
      have hkh : k ∈ st.hotkey_handles := mem_of_mem_keyPop hk
      have hknk : k ≠ nk := by
        intro hc
        rw [hc] at hk
        exact not_mem_keyPop_self hhn hk
      obtain ⟨p, hp, hpk⟩ := hcov k hkh
      have hpi : p.1 ≠ item := by
        intro hc
        rw [entry_of_id hid hp hl hc, hob] at hpk
        rw [← hpk] at hkh
        exact hhs hkh
      exact ⟨p, conflict_survives hid hcl hck hp (by rw [hpk]; exact hknk)
        hpi, hpk⟩
    · intro q hq hqk
      obtain ⟨p2, hp2, hpc, hpi, hqp⟩ := hchase q hq hqk
      have hmem2 : p2.2.key ∈ st.hotkey_handles :=
        hreg p2 hp2 (by rw [← hqp]; exact hqk)
      have hnk2 : p2.2.key ≠ nk := by
        rw [← hck]
        exact key_ne_of_ne_id hku hp2 hcl hcks hpc
      rw [hqp]
      exact mem_keyPop hmem2 hnk2
  · rw [if_neg hob]
    refine ⟨hids, keyPop_nodup (keyPop_nodup hhn),
      fun hc => hhs (mem_of_mem_keyPop (mem_of_mem_keyPop hc)), hkul, hnel,
      ?_, ?_⟩
    · intro k hk
      have hk1 : k ∈ keyPop st.hotkey_handles nk := mem_of_mem_keyPop hk
      have hkh : k ∈ st.hotkey_handles := mem_of_mem_keyPop hk1
      have hknk : k ≠ nk := by
        intro hc
        rw [hc] at hk1
        exact not_mem_keyPop_self hhn hk1
      have hkK : k ≠ entry.key := by
        intro hc
        rw [hc] at hk
        exact not_mem_keyPop_self (keyPop_nodup hhn) hk
      obtain ⟨p, hp, hpk⟩ := hcov k hkh
      have hpi : p.1 ≠ item := by
        intro hc
        rw [entry_of_id hid hp hl hc] at hpk
        exact hkK hpk.symm
      exact ⟨p, conflict_survives hid hcl hck hp (by rw [hpk]; exact hknk)
        hpi, hpk⟩
    · intro q hq hqk
      obtain ⟨p2, hp2, hpc, hpi, hqp⟩ := hchase q hq hqk
      have hmem2 : p2.2.key ∈ st.hotkey_handles :=
        hreg p2 hp2 (by rw [← hqp]; exact hqk)
      have hnk2 : p2.2.key ≠ nk := by
        rw [← hck]
        exact key_ne_of_ne_id hku hp2 hcl hcks hpc
      have hK2 : p2.2.key ≠ entry.key :=
        key_ne_of_ne_id hku hp2 hitem hob hpi
      rw [hqp]
      exact mem_keyPop (mem_keyPop hmem2 hnk2) hK2

/-- `edit_keybind` preserves the registry invariant (for a requested key
whose normalisation is not the literal sentinel string). -/
theorem WF_edit_keybind {st : AppState} (item : String) (nki : Option String)
    (confirm bindOk : Bool) (h : WF st)
    (hsent : ∀ raw, nki = some raw → normKey raw ≠ "(unbound)") :
    WF (edit_keybind st item nki confirm bindOk).state := by
  rcases hl : lookup st.sounds item with _ | entry
  · simpa [edit_keybind, hl] using h
  · rcases nki with _ | raw
    · simpa [edit_keybind, hl] using h
    · have hks : normKey raw ≠ "(unbound)" := hsent raw rfl
      by_cases hz : normKey raw = ""
      · rw [edit_keybind_unbind_shape confirm bindOk hl hz]
        by_cases hob : entry.key = "(unbound)"
        · rw [if_pos hob]
          exact WF_unbind_already h hl hob
        · rw [if_neg hob]
          exact WF_unbind_bound h hl hob
      · by_cases hno : entry.key = "(unbound)" ∨ entry.key ≠ normKey raw
        · rcases hcf : findConflict st.sounds item (normKey raw) with _ | cid
          · rw [edit_keybind_noconflict_shape confirm bindOk hl rfl hz hno hcf]
            have hnof : ∀ p ∈ st.sounds, p.1 ≠ item → p.2.key ≠ normKey raw :=
              fun p hp hpi => findConflict_none hcf p hp hpi (h.2.2.2.2.1 p hp)
            cases bindOk
            · show WF ⟨setKey st.sounds item "(unbound)",
                if entry.key = "(unbound)" then st.hotkey_handles
                else keyPop st.hotkey_handles entry.key⟩
              by_cases hob : entry.key = "(unbound)"
              · rw [if_pos hob]
                exact WF_unbind_already h hl hob
              · rw [if_neg hob]
                exact WF_unbind_bound h hl hob
            · show WF ⟨setKey st.sounds item (normKey raw),
                keyInsert (if entry.key = "(unbound)" then st.hotkey_handles
                  else keyPop st.hotkey_handles entry.key) (normKey raw)⟩
              exact WF_rebind_noconflict_ok h hl hz hks hnof
          · obtain ⟨hcne, centry, hcm, hckey, -⟩ := findConflict_some hcf
            rw [edit_keybind_conflict_shape confirm bindOk hl rfl hz hno hcf]
            cases confirm
            · exact h
            · cases bindOk
              · show WF ⟨setKey (setKey st.sounds cid "(unbound)") item
                    "(unbound)",
                  if entry.key = "(unbound)" then
                    keyPop st.hotkey_handles (normKey raw)
                  else keyPop (keyPop st.hotkey_handles (normKey raw))
                    entry.key⟩
                exact WF_conflict_fail h hl hcm hckey hcne hks
              · show WF ⟨setKey (setKey st.sounds cid "(unbound)") item
                    (normKey raw),
                  keyInsert (if entry.key = "(unbound)" then
                      keyPop st.hotkey_handles (normKey raw)
                    else keyPop (keyPop st.hotkey_handles (normKey raw))
                      entry.key) (normKey raw)⟩
                exact WF_conflict_ok h hl hcm hckey hcne hz hks
        · push_neg at hno
          rw [edit_keybind_noop_shape confirm bindOk hl hno.1
            (by rw [← hno.2] at hz; exact hz) hno.2.symm]
          exact h

/-- `remove_sound` preserves the registry invariant. -/
theorem WF_remove_sound {st : AppState} (selected : List String)
    (confirm : Bool) (fs : List String) (rmok : String → Bool) (h : WF st) :
    WF (remove_sound st selected confirm fs rmok).1 := by
  cases selected with
  | nil => exact h
  | cons x rest =>
      cases confirm
      · exact h
      · show WF (((x :: rest).foldl (remove_one rmok) (st, fs, ⟨[], []⟩))).1
        rw [remove_fold_fst]
        exact WF_removeAll _ _ h

/-- The normalised hotkeys whose registration `load_config` attempts, in
entry order. -/
def attKeys (es : List ConfigEntry) : List String :=
  es.filterMap loadKeyAttempt

/-- The sound ids `load_config` generates, one per entry from index `i`. -/
def genIds (uuid : Nat → String) : Nat → List ConfigEntry → List String
  | _, [] => []
  | i, e :: rest =>
      genId (e.name.getD "Unnamed") (uuid i) :: genIds uuid (i + 1) rest

theorem attKeys_cons_none {e : ConfigEntry} {rest : List ConfigEntry}
    (hat : loadKeyAttempt e = none) : attKeys (e :: rest) = attKeys rest := by
  simp [attKeys, List.filterMap_cons, hat]

theorem attKeys_cons_some {e : ConfigEntry} {rest : List ConfigEntry}
    {k : String} (hat : loadKeyAttempt e = some k) :
    attKeys (e :: rest) = k :: attKeys rest := by
  simp [attKeys, List.filterMap_cons, hat]

theorem loadKeyAttempt_ne_empty {e : ConfigEntry} {k : String}
    (hat : loadKeyAttempt e = some k) : k ≠ "" := by
  rcases he : e.key with _ | k0
  · simp [loadKeyAttempt, he] at hat
  · simp only [loadKeyAttempt, he] at hat
    by_cases hz : normKey k0 ≠ ""
    · rw [if_pos hz] at hat
      rw [← (Option.some.injEq _ _).mp hat]
      exact hz
    · rw [if_neg hz] at hat
      simp at hat

/-- `loadEntries` preserves the invariant provided the attempted keys are
pairwise distinct, none of them is the sentinel, none collides with a key
already present, and the generated ids are fresh and pairwise distinct. -/
theorem WF_loadEntries {uuid : Nat → String} {bindOk : Nat → Bool} :
    ∀ (es : List ConfigEntry) (i : Nat) (acc : AppState) (failed : List String),
      WF acc →
      (attKeys es).Nodup →
      "(unbound)" ∉ attKeys es →
      (∀ k ∈ attKeys es, ∀ p ∈ acc.sounds, p.2.key ≠ k) →
      (genIds uuid i es).Nodup →
      (∀ g ∈ genIds uuid i es, ∀ p ∈ acc.sounds, p.1 ≠ g) →
      WF (loadEntries uuid bindOk i acc failed es).1 := by
  intro es
  induction es with
  | nil =>
      intro i acc failed h _ _ _ _ _
      exact h
  | cons e rest ih =>
      intro i acc failed h hnd hsent hkeys hgnd hgids
      have hgfresh : ∀ p ∈ acc.sounds, p.1 ≠ genId (e.name.getD "Unnamed")
          (uuid i) :=
        fun p hp => hgids _ (List.mem_cons_self _ _) p hp
      obtain ⟨hgh, hgt⟩ := List.nodup_cons.mp hgnd
      have hgids' : ∀ g ∈ genIds uuid (i + 1) rest,
          ∀ p ∈ acc.sounds, p.1 ≠ g :=
        fun g hg p hp => hgids g (List.mem_cons_of_mem _ hg) p hp
      rcases hat : loadKeyAttempt e with _ | k
      · have hacc : (loadOne uuid bindOk i acc e).1 =
            ⟨dictInsert acc.sounds (genId (e.name.getD "Unnamed") (uuid i))
              (loadedRecord (bindOk i) e), acc.hotkey_handles⟩ := by
          simp [loadOne, loadHandles, hat]
        have hreck : (loadedRecord (bindOk i) e).key = "(unbound)" := by
          simp [loadedRecord, hat]
        rw [attKeys_cons_none hat] at hnd hsent hkeys
        show WF (loadEntries uuid bindOk (i + 1) (loadOne uuid bindOk i acc e).1
          (failed ++ (match (loadOne uuid bindOk i acc e).2 with
            | none => [] | some m => [m])) rest).1
        rw [hacc]
        refine ih (i + 1) _ _ (WF_add_unbound h hgfresh hreck) hnd hsent ?_
          hgt ?_
        · intro k2 hk2 p hp
          rcases mem_dictInsert hp with rfl | hp
          · rw [hreck]
            intro hc
            rw [hc] at hsent
            exact hsent hk2
          · exact hkeys k2 hk2 p hp
        · intro g hg p hp
          rcases mem_dictInsert hp with rfl | hp
          · intro hc
            apply hgh
            rw [show genId (e.name.getD "Unnamed") (uuid i) = g from hc]
            exact hg
          · exact hgids' g hg p hp
      · have hk0 : k ≠ "" := loadKeyAttempt_ne_empty hat
        rw [attKeys_cons_some hat] at hnd hsent hkeys
        have hksent : k ≠ "(unbound)" := by
          intro hc
          rw [hc] at hsent
          exact hsent (List.mem_cons_self _ _)
        obtain ⟨hkh, hkt⟩ := List.nodup_cons.mp hnd
        cases hbi : bindOk i
        · have hacc : (loadOne uuid bindOk i acc e).1 =
              ⟨dictInsert acc.sounds (genId (e.name.getD "Unnamed") (uuid i))
                (loadedRecord (bindOk i) e), acc.hotkey_handles⟩ := by
            simp [loadOne, loadHandles, hat, hbi]
          have hreck : (loadedRecord (bindOk i) e).key = "(unbound)" := by
            simp [loadedRecord, hat, hbi]
          show WF (loadEntries uuid bindOk (i + 1) (loadOne uuid bindOk i acc e).1
            (failed ++ (match (loadOne uuid bindOk i acc e).2 with
              | none => [] | some m => [m])) rest).1
          rw [hacc]
          refine ih (i + 1) _ _ (WF_add_unbound h hgfresh hreck) hkt
            (fun hc => hsent (List.mem_cons_of_mem _ hc)) ?_ hgt ?_
          · intro k2 hk2 p hp
            rcases mem_dictInsert hp with rfl | hp
            · rw [hreck]
              intro hc
              rw [hc] at hsent
              exact hsent (List.mem_cons_of_mem _ hk2)
            · exact hkeys k2 (List.mem_cons_of_mem _ hk2) p hp
          · intro g hg p hp
            rcases mem_dictInsert hp with rfl | hp
            · intro hc
              apply hgh
              rw [show genId (e.name.getD "Unnamed") (uuid i) = g from hc]
              exact hg
            · exact hgids' g hg p hp
        · have hknh : k ∉ acc.hotkey_handles := by
            intro hc
            obtain ⟨p, hp, hpk⟩ := h.2.2.2.2.2.1 k hc
            exact hkeys k (List.mem_cons_self _ _) p hp hpk
          have hacc : (loadOne uuid bindOk i acc e).1 =
              ⟨dictInsert acc.sounds (genId (e.name.getD "Unnamed") (uuid i))
                (loadedRecord (bindOk i) e),
               keyInsert acc.hotkey_handles k⟩ := by
            simp [loadOne, loadHandles, hat, hbi]
          have hreck : (loadedRecord (bindOk i) e).key = k := by
            simp [loadedRecord, hat, hbi]
          show WF (loadEntries uuid bindOk (i + 1) (loadOne uuid bindOk i acc e).1
            (failed ++ (match (loadOne uuid bindOk i acc e).2 with
              | none => [] | some m => [m])) rest).1
          rw [hacc]
          refine ih (i + 1) _ _
            (WF_add_bound h hgfresh hreck hk0 hksent hknh) hkt
            (fun hc => hsent (List.mem_cons_of_mem _ hc)) ?_ hgt ?_
          · intro k2 hk2 p hp
            rcases mem_dictInsert hp with rfl | hp
            · rw [hreck]
              intro hc
              rw [hc] at hkh
              exact hkh hk2
            · exact hkeys k2 (List.mem_cons_of_mem _ hk2) p hp
          · intro g hg p hp
            rcases mem_dictInsert hp with rfl | hp
            · intro hc
              apply hgh
              rw [show genId (e.name.getD "Unnamed") (uuid i) = g from hc]
              exact hg
            · exact hgids' g hg p hp

theorem lookup_dictInsert_ne {l : List (String × SoundEntry)} {k sid : String}
    {v : SoundEntry} (h : sid ≠ k) :
    lookup (dictInsert l k v) sid = lookup l sid := by
  induction l with
  | nil => simp [dictInsert, lookup, Ne.symm h]
  | cons p rest ih =>
      by_cases hp : p.1 = k
      · have hps : p.1 ≠ sid := fun hc => h (by rw [← hc, hp])
        simp [dictInsert, hp, lookup, hps, Ne.symm h]
      · by_cases hps : p.1 = sid <;>
          simp [dictInsert, hp, lookup, hps, ih, h, Ne.symm h]

/-! ### Claim C1 (corrected) -/

/-- Claim C1, counterexample: `load_config` re-registers each persisted
hotkey with no duplicate check (source lines 340-350), so loading a config
whose entries carry the same key — with the hotkey engine accepting both
registrations, as the `keyboard` library does — leaves two live records
both holding `f1`.  Key exclusivity therefore does not hold at every
reachable state. -/
theorem C1_counterexample :
    ¬ KeyUniquel (load_config ⟨[], []⟩
        (some (.parsed [{ key := some "f1" }, { key := some "f1" }]))
        (fun i => toString i) (fun _ => true)).state.sounds ∧
    ((load_config ⟨[], []⟩
        (some (.parsed [{ key := some "f1" }, { key := some "f1" }]))
        (fun i => toString i) (fun _ => true)).state.sounds.map
          (fun p => p.2.key)) = ["f1", "f1"] :=
  ⟨by decide, rfl⟩

/-- Claim C1, amended: the full registry invariant `WF` — in particular
`KeyUniquel`, "at most one live record holds any non-sentinel hotkey" — is
preserved by creation (binding an already-held key leaves the incoming
record unbound while the prior owner keeps it, shown by the second
conjunct), by rebinding (which requires confirmed displacement), and by
removal; `load_config`, however, preserves it only under the additional
assumption that the loaded entries' attempted keys are pairwise distinct
(true of every file `save_config` writes from a `WF` state, but not of an
arbitrary config file — see the counterexample). -/
theorem C1_hotkey_exclusivity_amended :
    (∀ (st : AppState) (fs filepaths : List String)
        (name rawKey uuidHex : String) (bindOk : Bool), WF st →
        normKey rawKey ≠ "" → normKey rawKey ≠ "(unbound)" →
        (∀ p ∈ st.sounds, p.1 ≠ genId name uuidHex) →
        WF (add_sound st fs filepaths (some name) (some rawKey) uuidHex
          bindOk).1) ∧
    (∀ (st : AppState) (fs : List String) (fp : String) (fps : List String)
        (name rawKey uuidHex : String) (bindOk : Bool),
        name ≠ "" → rawKey ≠ "" → normKey rawKey ∈ st.hotkey_handles →
        (add_sound st fs (fp :: fps) (some name) (some rawKey) uuidHex
            bindOk).1.hotkey_handles = st.hotkey_handles ∧
        (∃ e, lookup (add_sound st fs (fp :: fps) (some name) (some rawKey)
            uuidHex bindOk).1.sounds (genId name uuidHex) = some e ∧
          e.key = "(unbound)") ∧
        (∀ sid, sid ≠ genId name uuidHex →
          lookup (add_sound st fs (fp :: fps) (some name) (some rawKey)
              uuidHex bindOk).1.sounds sid = lookup st.sounds sid)) ∧
    (∀ (st : AppState) (item : String) (nki : Option String)
        (confirm bindOk : Bool), WF st →
        (∀ raw, nki = some raw → normKey raw ≠ "(unbound)") →
        WF (edit_keybind st item nki confirm bindOk).state) ∧
    (∀ (st : AppState) (selected : List String) (confirm : Bool)
        (fs : List String) (rmok : String → Bool), WF st →
        WF (remove_sound st selected confirm fs rmok).1) ∧
    (∀ (st : AppState) (entries : List ConfigEntry) (uuid : Nat → String)
        (bindOk : Nat → Bool),
        (attKeys entries).Nodup → "(unbound)" ∉ attKeys entries →
        (genIds uuid 0 entries).Nodup →
        WF (load_config st (some (.parsed entries)) uuid bindOk).state) := by
  refine ⟨?_, ?_, ?_, ?_, ?_⟩
  · intro st fs filepaths name rawKey uuidHex bindOk h h1 h2 h3
    exact WF_add_sound fs filepaths uuidHex bindOk h h1 h2 h3
  · intro st fs fp fps name rawKey uuidHex bindOk hn hr hmem
    simp only [add_sound, if_neg hn, if_neg hr, if_pos hmem]
    exact ⟨by trivial, ⟨_, lookup_dictInsert_self, rfl⟩,
      fun sid hs => lookup_dictInsert_ne hs⟩
  · intro st item nki confirm bindOk h hsent
    exact WF_edit_keybind item nki confirm bindOk h hsent
  · intro st selected confirm fs rmok h
    exact WF_remove_sound selected confirm fs rmok h
  · intro st entries uuid bindOk h1 h2 h3
    show WF (loadEntries uuid bindOk 0 ⟨[], []⟩ [] entries).1
    refine WF_loadEntries entries 0 ⟨[], []⟩ [] ?_ h1 h2 ?_ h3 ?_
    · exact (by decide : WF ⟨[], []⟩)
    · intro k _ p hp
      simp at hp
    · intro g _ p hp
      simp at hp

/-- Registry for the C1 witness. -/
def exStateC1 : AppState :=
  ⟨[("a1", ⟨"A", none, ["a.wav"], 1, "f1"⟩),
    ("b1", ⟨"B", none, [], 1, "(unbound)"⟩)], ["f1"]⟩

/-- Witness for the amended C1 at concrete inputs: a fresh add, an add
whose key `F1` is already held (incoming record stays unbound, the handle
table and prior records unchanged), a rebind, a removal, and a load of a
duplicate-free config all preserve the invariant. -/
theorem C1_witness :
    WF (add_sound exStateC1 ["sounds"] ["/t/a.wav"] (some "Boo") (some "G1")
        "u9" true).1 ∧
    ((add_sound exStateC1 ["sounds"] ["/t/a.wav"] (some "Boo") (some "F1")
        "u9" true).1.hotkey_handles = exStateC1.hotkey_handles ∧
      (∃ e, lookup (add_sound exStateC1 ["sounds"] ["/t/a.wav"] (some "Boo")
          (some "F1") "u9" true).1.sounds (genId "Boo" "u9") = some e ∧
        e.key = "(unbound)") ∧
      (∀ sid, sid ≠ genId "Boo" "u9" →
        lookup (add_sound exStateC1 ["sounds"] ["/t/a.wav"] (some "Boo")
            (some "F1") "u9" true).1.sounds sid =
          lookup exStateC1.sounds sid)) ∧
    WF (edit_keybind exStateC1 "b1" (some "g2") true true).state ∧
    WF (remove_sound exStateC1 ["a1"] true [] (fun _ => true)).1 ∧
    WF (load_config ⟨[], []⟩ (some (.parsed [{ key := some "f1" }, {}]))
        (fun i => toString i) (fun _ => true)).state :=
  ⟨C1_hotkey_exclusivity_amended.1 exStateC1 _ _ "Boo" "G1" "u9" true
      (by decide) (by decide) (by decide) (by decide),
   C1_hotkey_exclusivity_amended.2.1 exStateC1 ["sounds"] "/t/a.wav" []
      "Boo" "F1" "u9" true (by decide) (by decide) (by decide),
   C1_hotkey_exclusivity_amended.2.2.1 exStateC1 "b1" (some "g2") true true
      (by decide) (by
        intro raw h
        rw [← (Option.some.injEq _ _).mp h]
        decide),
   C1_hotkey_exclusivity_amended.2.2.2.1 exStateC1 ["a1"] true []
      (fun _ => true) (by decide),
   C1_hotkey_exclusivity_amended.2.2.2.2 ⟨[], []⟩
      [{ key := some "f1" }, {}] (fun i => toString i) (fun _ => true)
      (by decide) (by decide) (by decide)⟩

/-! ### Claim C3: save followed by load -/

/-- The records `loadEntries` appends, one per entry from index `i`. -/
def loadRecs (uuid : Nat → String) (bindOk : Nat → Bool) :
    Nat → List ConfigEntry → List (String × SoundEntry)
  | _, [] => []
  | i, e :: rest =>
      (genId (e.name.getD "Unnamed") (uuid i), loadedRecord (bindOk i) e) ::
        loadRecs uuid bindOk (i + 1) rest

/-- The `failed_keys` lines `loadEntries` appends, in entry order. -/
def loadFails (bindOk : Nat → Bool) : Nat → List ConfigEntry → List String
  | _, [] => []
  | i, e :: rest =>
      (match loadFailMsg (bindOk i) e with | none => [] | some m => [m]) ++
        loadFails bindOk (i + 1) rest

theorem loadEntries_shape {uuid : Nat → String} {bindOk : Nat → Bool} :
    ∀ (es : List ConfigEntry) (i : Nat) (acc : AppState) (failed : List String),
      (genIds uuid i es).Nodup →
      (∀ g ∈ genIds uuid i es, ∀ p ∈ acc.sounds, p.1 ≠ g) →
      (loadEntries uuid bindOk i acc failed es).1.sounds =
        acc.sounds ++ loadRecs uuid bindOk i es ∧
      (loadEntries uuid bindOk i acc failed es).2 =
        failed ++ loadFails bindOk i es := by
  intro es
  induction es with
  | nil =>
      intro i acc failed _ _
      exact ⟨(List.append_nil _).symm, (List.append_nil _).symm⟩
  | cons e rest ih =>
      intro i acc failed hnd hfresh
      obtain ⟨hgh, hgt⟩ := List.nodup_cons.mp hnd
      have hgfresh : ∀ p ∈ acc.sounds,
          p.1 ≠ genId (e.name.getD "Unnamed") (uuid i) :=
        fun p hp => hfresh _ (List.mem_cons_self _ _) p hp
      have hins : dictInsert acc.sounds (genId (e.name.getD "Unnamed") (uuid i))
            (loadedRecord (bindOk i) e) =
          acc.sounds ++ [(genId (e.name.getD "Unnamed") (uuid i),
            loadedRecord (bindOk i) e)] :=
        dictInsert_of_not_mem hgfresh
      have hfresh' : ∀ g ∈ genIds uuid (i + 1) rest,
          ∀ p ∈ (loadOne uuid bindOk i acc e).1.sounds, p.1 ≠ g := by
        intro g hg p hp
        rcases mem_dictInsert hp with rfl | hp
        · intro hc
          apply hgh
          rw [show genId (e.name.getD "Unnamed") (uuid i) = g from hc]
          exact hg
        · exact hfresh g (List.mem_cons_of_mem _ hg) p hp
      have ih2 := ih (i + 1) (loadOne uuid bindOk i acc e).1
        (failed ++ (match (loadOne uuid bindOk i acc e).2 with
          | none => [] | some m => [m])) hgt hfresh'
      constructor
      · show (loadEntries uuid bindOk (i + 1) (loadOne uuid bindOk i acc e).1
          (failed ++ (match (loadOne uuid bindOk i acc e).2 with
            | none => [] | some m => [m])) rest).1.sounds = _
        rw [ih2.1]
        show dictInsert acc.sounds _ _ ++ _ = _
        rw [hins, loadRecs, List.append_assoc, List.singleton_append]
      · show (loadEntries uuid bindOk (i + 1) (loadOne uuid bindOk i acc e).1
          (failed ++ (match (loadOne uuid bindOk i acc e).2 with
            | none => [] | some m => [m])) rest).2 = _
        rw [ih2.2]
        show (failed ++ (match loadFailMsg (bindOk i) e with
          | none => [] | some m => [m])) ++ _ = _
        rw [loadFails, List.append_assoc]

theorem loadRecs_getElem {uuid : Nat → String} {bindOk : Nat → Bool} :
    ∀ (es : List ConfigEntry) (i j : Nat) (e : ConfigEntry),
      es[j]? = some e →
      (loadRecs uuid bindOk i es)[j]? =
        some (genId (e.name.getD "Unnamed") (uuid (i + j)),
          loadedRecord (bindOk (i + j)) e) := by
  intro es
  induction es with
  | nil =>
      intro i j e h
      simp at h
  | cons e0 rest ih =>
      intro i j e h
      cases j with
      | zero =>
          rw [List.getElem?_cons_zero, Option.some.injEq] at h
          rw [loadRecs, List.getElem?_cons_zero, h,
            show i + 0 = i from rfl]
      | succ j =>
          rw [List.getElem?_cons_succ] at h
          rw [loadRecs, List.getElem?_cons_succ, ih (i + 1) j e h,
            show i + 1 + j = i + (j + 1) by omega]

theorem loadFails_mem2 {bindOk : Nat → Bool} :
    ∀ (es : List ConfigEntry) (i j : Nat) (e : ConfigEntry) (m : String),
      es[j]? = some e → loadFailMsg (bindOk (i + j)) e = some m →
      m ∈ loadFails bindOk i es := by
  intro es
  induction es with
  | nil =>
      intro i j e m h
      simp at h
  | cons e0 rest ih =>
      intro i j e m h hm
      cases j with
      | zero =>
          rw [List.getElem?_cons_zero, Option.some.injEq] at h
          rw [loadFails]
          apply List.mem_append_left
          rw [show i + 0 = i from rfl] at hm
          rw [h, hm]
          exact List.mem_singleton_self _
      | succ j =>
          rw [List.getElem?_cons_succ] at h
          rw [loadFails]
          apply List.mem_append_right
          refine ih (i + 1) j e m h ?_
          rw [show i + 1 + j = i + (j + 1) by omega]
          exact hm

theorem loadRecs_length {uuid : Nat → String} {bindOk : Nat → Bool} :
    ∀ (es : List ConfigEntry) (i : Nat),
      (loadRecs uuid bindOk i es).length = es.length := by
  intro es
  induction es with
  | nil =>
      intro i
      rfl
  | cons e rest ih =>
      intro i
      simp [loadRecs, ih]

theorem loadKeyAttempt_saveEntry {p : String × SoundEntry}
    (hnorm : p.2.key ≠ "(unbound)" →
      p.2.key ≠ "" ∧ normKey p.2.key = p.2.key) :
    loadKeyAttempt (saveEntry p) =
      if p.2.key = "(unbound)" then none else some p.2.key := by
  by_cases hs : p.2.key = "(unbound)"
  · simp [loadKeyAttempt, saveEntry, hs]
  · obtain ⟨h0, hn⟩ := hnorm hs
    simp [loadKeyAttempt, saveEntry, hs, hn, h0]

theorem loadedRecord_saveEntry {p : String × SoundEntry} (ok : Bool)
    (hnorm : p.2.key ≠ "(unbound)" →
      p.2.key ≠ "" ∧ normKey p.2.key = p.2.key) :
    loadedRecord ok (saveEntry p) =
      { name := p.2.name, folder := p.2.folder, files := p.2.files,
        volume := p.2.volume,
        key := if p.2.key = "(unbound)" then "(unbound)"
               else if ok then p.2.key else "(unbound)" } := by
  unfold loadedRecord
  rw [loadKeyAttempt_saveEntry hnorm]
  by_cases hs : p.2.key = "(unbound)" <;> simp [saveEntry, hs]

theorem loadFailMsg_saveEntry {p : String × SoundEntry} (ok : Bool)
    (hnorm : p.2.key ≠ "(unbound)" →
      p.2.key ≠ "" ∧ normKey p.2.key = p.2.key) :
    loadFailMsg ok (saveEntry p) =
      if p.2.key = "(unbound)" then none
      else if ok then none
      else some (p.2.name ++ " (" ++ p.2.key ++ ")") := by
  unfold loadFailMsg
  rw [loadKeyAttempt_saveEntry hnorm]
  by_cases hs : p.2.key = "(unbound)" <;> simp [saveEntry, hs]

/-- Claim C3: `save_config` followed by `load_config` reproduces, for
each record in the same order, the same `name`, `volume`, `variationFiles`
(and `folder`); the hotkey is reproduced when its re-registration
succeeds, and on a registration failure that record is loaded unbound and
listed in the non-fatal `failed_keys` summary.  The final conjunct checks
the tolerant defaults: an entry missing every field loads with name
`"Unnamed"`, no folder, no files, volume `1.0`, unbound.  Hypotheses: the
state's bound keys are non-empty and already normalised (true of every
key the app stores, which all pass `lower().strip()`), and the freshly
generated ids do not collide (the uuid contract). -/
theorem C3_save_load_roundtrip :
    (∀ (st : AppState) (uuid : Nat → String) (bindOk : Nat → Bool),
      (∀ p ∈ st.sounds, p.2.key ≠ "(unbound)" →
        p.2.key ≠ "" ∧ normKey p.2.key = p.2.key) →
      (genIds uuid 0 (save_config st)).Nodup →
      (load_config st (some (.parsed (save_config st)))
          uuid bindOk).state.sounds.length = st.sounds.length ∧
      (∀ (j : Nat) (orig : String × SoundEntry), st.sounds[j]? = some orig →
        ∃ q, (load_config st (some (.parsed (save_config st)))
            uuid bindOk).state.sounds[j]? = some q ∧
          q.2.name = orig.2.name ∧ q.2.volume = orig.2.volume ∧
          q.2.files = orig.2.files ∧ q.2.folder = orig.2.folder ∧
          (orig.2.key = "(unbound)" → q.2.key = "(unbound)") ∧
          (orig.2.key ≠ "(unbound)" → bindOk j = true →
            q.2.key = orig.2.key) ∧
          (orig.2.key ≠ "(unbound)" → bindOk j = false →
            q.2.key = "(unbound)" ∧
            (orig.2.name ++ " (" ++ orig.2.key ++ ")") ∈
              (load_config st (some (.parsed (save_config st)))
                uuid bindOk).failed_keys))) ∧
    (∀ ok : Bool, loadedRecord ok {} =
      ⟨"Unnamed", none, [], 1, "(unbound)"⟩) := by
  constructor
  · intro st uuid bindOk hnorm hnd
    have hshape := @loadEntries_shape uuid bindOk
      (save_config st) 0 ⟨[], []⟩ [] hnd (by intro g _ p hp; simp at hp)
    have hsounds : (load_config st (some (.parsed (save_config st)))
        uuid bindOk).state.sounds = loadRecs uuid bindOk 0 (save_config st) := by
      show (loadEntries uuid bindOk 0 ⟨[], []⟩ [] (save_config st)).1.sounds = _
      rw [hshape.1]
      exact List.nil_append _
    have hfails : (load_config st (some (.parsed (save_config st)))
        uuid bindOk).failed_keys = loadFails bindOk 0 (save_config st) := by
      show (loadEntries uuid bindOk 0 ⟨[], []⟩ [] (save_config st)).2 = _
      rw [hshape.2]
      exact List.nil_append _
    constructor
    · rw [hsounds, loadRecs_length, save_config, List.length_map]
    · intro j orig horig
      have hsave : (save_config st)[j]? = some (saveEntry orig) := by
        rw [save_config, List.getElem?_map, horig]
        rfl
      have hget := @loadRecs_getElem uuid bindOk
        (save_config st) 0 j (saveEntry orig) hsave
      rw [show (0 : Nat) + j = j by omega] at hget
      have hno : orig.2.key ≠ "(unbound)" →
          orig.2.key ≠ "" ∧ normKey orig.2.key = orig.2.key :=
        hnorm orig (List.getElem?_mem horig)
      refine ⟨(genId ((saveEntry orig).name.getD "Unnamed") (uuid j),
        loadedRecord (bindOk j) (saveEntry orig)),
        by rw [hsounds]; exact hget, ?_⟩
      rw [show ((genId ((saveEntry orig).name.getD "Unnamed") (uuid j),
        loadedRecord (bindOk j) (saveEntry orig))).2 =
          loadedRecord (bindOk j) (saveEntry orig) from rfl]
      rw [loadedRecord_saveEntry (bindOk j) hno]
      refine ⟨rfl, rfl, rfl, rfl, ?_, ?_, ?_⟩
      · intro hs
        simp [hs]
      · intro hs hb
        simp [hs, hb]
      · intro hs hb
        refine ⟨by simp [hs, hb], ?_⟩
        rw [hfails]
        refine loadFails_mem2 (save_config st) 0 j (saveEntry orig) _ hsave ?_
        rw [show (0 : Nat) + j = j by omega,
          loadFailMsg_saveEntry (bindOk j) hno]
        simp [hs, hb]
  · intro ok
    rfl

/-- Witness for C3: a two-record registry (one bound, one unbound) saved
and reloaded with every registration failing reproduces names, volumes and
file lists in order, demotes the bound record to unbound, and lists it in
the failure summary; the defaults conjunct is checked at both engine
outcomes. -/
theorem C3_witness :
    ((load_config ⟨[("a1", ⟨"A", some "sounds/A", ["sounds/A/a.wav"], 1, "f1"⟩),
        ("b1", ⟨"B", none, [], 1, "(unbound)"⟩)], ["f1"]⟩
      (some (.parsed (save_config ⟨[("a1",
        ⟨"A", some "sounds/A", ["sounds/A/a.wav"], 1, "f1"⟩),
        ("b1", ⟨"B", none, [], 1, "(unbound)"⟩)], ["f1"]⟩)))
      (fun i => toString i) (fun _ => false)).state.sounds.length = 2) ∧
    (∃ q, (load_config ⟨[("a1", ⟨"A", some "sounds/A", ["sounds/A/a.wav"], 1,
        "f1"⟩), ("b1", ⟨"B", none, [], 1, "(unbound)"⟩)], ["f1"]⟩
      (some (.parsed (save_config ⟨[("a1",
        ⟨"A", some "sounds/A", ["sounds/A/a.wav"], 1, "f1"⟩),
        ("b1", ⟨"B", none, [], 1, "(unbound)"⟩)], ["f1"]⟩)))
      (fun i => toString i) (fun _ => false)).state.sounds[0]? = some q ∧
      q.2.name = "A" ∧ q.2.volume = 1 ∧ q.2.files = ["sounds/A/a.wav"] ∧
      q.2.folder = some "sounds/A" ∧ q.2.key = "(unbound)" ∧
      ("A" ++ " (" ++ "f1" ++ ")") ∈
        (load_config ⟨[("a1", ⟨"A", some "sounds/A", ["sounds/A/a.wav"], 1,
            "f1"⟩), ("b1", ⟨"B", none, [], 1, "(unbound)"⟩)], ["f1"]⟩
          (some (.parsed (save_config ⟨[("a1",
            ⟨"A", some "sounds/A", ["sounds/A/a.wav"], 1, "f1"⟩),
            ("b1", ⟨"B", none, [], 1, "(unbound)"⟩)], ["f1"]⟩)))
          (fun i => toString i) (fun _ => false)).failed_keys) ∧
    loadedRecord false {} = ⟨"Unnamed", none, [], 1, "(unbound)"⟩ := by
  obtain ⟨hmain, hdef⟩ := C3_save_load_roundtrip
  obtain ⟨hlen, hrec⟩ := hmain
    ⟨[("a1", ⟨"A", some "sounds/A", ["sounds/A/a.wav"], 1, "f1"⟩),
      ("b1", ⟨"B", none, [], 1, "(unbound)"⟩)], ["f1"]⟩
    (fun i => toString i) (fun _ => false) (by decide) (by decide)
  obtain ⟨q, hq, hn, hv, hf, hfo, -, -, hfail⟩ := hrec 0
    ("a1", ⟨"A", some "sounds/A", ["sounds/A/a.wav"], 1, "f1"⟩) (by decide)
  obtain ⟨hku, hkf⟩ := hfail (by decide) rfl
  exact ⟨hlen, ⟨q, hq, hn, hv, hf, hfo, hku, hkf⟩, hdef false⟩

end Soundboard
